import Mathlib

/-!
# RFC 9039 `urn:dev` parser (package `rfc9039`)

A shallow embedding of `rfc9039.go` and the properties of `Parse` and
`HasUrnDevPrefix` stated by the specification.

Modelling conventions

* A Go `string` is a `Str`, a list of Unicode code points: the text the string
  holds as UTF-8. `len` is the length in bytes of that encoding.
* `Parse` returns a pair in Go, `(UrnDev, error)`. Here it returns
  `Option (UrnDev × Option Str)`: `none` stands for a run-time panic (an index
  or a slice bound out of range), `some (v, none)` for `(v, nil)` and
  `some (v, some msg)` for `(v, errors.New(msg))`.
* A Go slice of strings is `Option (List Str)`: `none` is the `nil` slice and
  `some []` the empty, non-nil slice.
* The regular expressions are anchored character-class patterns; each is
  embedded as the scanner that decides the pattern.
* `strings.ToLower` maps every code point through `unicode.ToLower`. Its ASCII
  part is written out; the case table for code points above U+007F is the
  parameter `uni`.
-/

namespace rfc9039

/-- Text of a Go string, as a list of code points. -/
abbrev Str := List Char

/-- Byte length of a string, Go's builtin `len`. -/
def len (s : Str) : Nat := (s.map Char.utf8Size).sum

def UrnDevPrefix : Str := "urn:dev:".toList

def UrnDevMaxSectionCount : Nat := 16

/-- Record `UrnDev`, field for field. -/
structure UrnDev where
  FullName : Str
  Subtype : Str
  Organization : Str
  Product : Str
  Serial : Str
  Component : Option (List Str)
  Identifier : Option (List Str)
  Eui64Identifier : Str
  OwIdentifier : Str
deriving DecidableEq, Repr

/-- The composite literal `UrnDev{}`: every string empty, both slices nil. -/
def UrnDev.zero : UrnDev :=
  { FullName := [], Subtype := [], Organization := [], Product := [], Serial := [],
    Component := none, Identifier := none, Eui64Identifier := [], OwIdentifier := [] }

/-! ## Library functions used by the package -/

/-- Function `unicode.ToLower`: ASCII is handled inline, the rest goes through the
case table `uni`. -/
def toLowerRune (uni : Char → Char) (r : Char) : Char :=
  if r.toNat ≤ 127 then
    if 65 ≤ r.toNat ∧ r.toNat ≤ 90 then Char.ofNat (r.toNat + 32) else r
  else uni r

/-- Function `strings.ToLower`. -/
def ToLower (uni : Char → Char) (s : Str) : Str := s.map (toLowerRune uni)

/-- Function `strings.HasPrefix`. -/
def HasPrefix (s pre : Str) : Bool :=
  decide (pre.length ≤ s.length) && decide (s.take pre.length = pre)

/-- Function `strings.Split` for a separator of one character: the pieces between
the occurrences of `sep`, empty pieces kept; never the empty list. -/
def Split (sep : Char) : Str → List Str
  | [] => [[]]
  | c :: cs =>
    if c = sep then [] :: Split sep cs
    else match Split sep cs with
      | [] => [[c]]
      | piece :: more => (c :: piece) :: more

/-- Function `strings.SplitN` for a separator of one character and a count `n ≥ 0`: at
most `n` pieces, the last one being the unsplit rest; `n = 0` gives no piece. -/
def SplitN (sep : Char) : Str → Nat → List Str
  | _, 0 => []
  | s, 1 => [s]
  | [], _ + 2 => [[]]
  | c :: cs, n + 2 =>
    if c = sep then [] :: SplitN sep cs (n + 1)
    else match SplitN sep cs (n + 2) with
      | [] => [[c]]
      | piece :: more => (c :: piece) :: more

/-- Slice expression `xs[i:]`; panics when `i` exceeds the length. -/
def sliceFrom {α : Type} (xs : List α) (i : Nat) : Option (List α) :=
  if i ≤ xs.length then some (xs.drop i) else none

/-- Assignment `xs[i] = v`; panics when `i` is out of range. -/
def assign {α : Type} (xs : List α) (i : Nat) (v : α) : Option (List α) :=
  if i < xs.length then some (xs.set i v) else none

/-- Call `errors.New(msg)`, a non-nil error carrying `msg`. -/
def errorsNew (msg : Str) : Option Str := some msg

/-! ## Character classes and the five patterns -/

def inRange (lo hi : Char) (c : Char) : Bool :=
  decide (lo.toNat ≤ c.toNat) && decide (c.toNat ≤ hi.toNat)

/-- Class `[0-9]`. -/
def isDigit (c : Char) : Bool := inRange '0' '9' c

/-- Class `[1-9]`. -/
def isNzDigit (c : Char) : Bool := inRange '1' '9' c

/-- Class `[a-z]`. -/
def isLower (c : Char) : Bool := inRange 'a' 'z' c

/-- Class `[0-9a-z]`. -/
def isLowerOrDigit (c : Char) : Bool := isDigit c || isLower c

/-- Class `[0-9a-f]`. -/
def isHexDigit (c : Char) : Bool := isDigit c || inRange 'a' 'f' c

/-- Class `[A-Za-z0-9\.]`. -/
def isReservedNoDash (c : Char) : Bool :=
  inRange 'A' 'Z' c || isLower c || isDigit c || decide (c = '.')

/-- Class `[A-Za-z0-9\.\-]`. -/
def isReserved (c : Char) : Bool := isReservedNoDash c || decide (c = '-')

/-- Pattern `^[a-z][0-9a-z]*$`. -/
def SubTypeRegEx : Str → Bool
  | [] => false
  | c :: cs => isLower c && cs.all isLowerOrDigit

/-- Pattern `^[A-Za-z0-9\.]+$`. -/
def DevUrnReservedNoDashRegEx : Str → Bool
  | [] => false
  | c :: cs => isReservedNoDash c && cs.all isReservedNoDash

/-- Pattern `^[A-Za-z0-9\.\-]+$`. -/
def DevUrnReservedRegEx : Str → Bool
  | [] => false
  | c :: cs => isReserved c && cs.all isReserved

/-- Pattern `^([0-9a-f][0-9a-f])+$`: one or more pairs of hex digits. -/
def HexStringRegEx : Str → Bool
  | a :: b :: rest => isHexDigit a && isHexDigit b && (rest.isEmpty || HexStringRegEx rest)
  | _ => false

/-- Pattern `^[1-9][0-9]*$`. -/
def PosNumberRegEx : Str → Bool
  | [] => false
  | c :: cs => isNzDigit c && cs.all isDigit

/-! ## The package -/

def HasUrnDevPrefix (uni : Char → Char) (name : Str) : Bool :=
  HasPrefix (ToLower uni name) UrnDevPrefix

def isValidEui64 (name : Str) : Bool :=
  if len name ≠ 16 then false else HexStringRegEx name

def isValidOwAddress (name : Str) : Bool :=
  if len name ≠ 16 then false else HexStringRegEx name

def isValidPosNumber (name : Str) : Bool := PosNumberRegEx name

def isValidIdentifier (name : Str) : Bool := DevUrnReservedRegEx name

def isValidIdentifierNoDash (name : Str) : Bool := DevUrnReservedNoDashRegEx name

def isValidSubType (name : Str) : Bool := SubTypeRegEx name


/-- Function `Parse`. The two validation loops are the `List.all` tests. -/
def Parse (uni : Char → Char) (name : Str) : Option (UrnDev × Option Str) := do
  let mut out : UrnDev := UrnDev.zero
  out := { out with FullName := name }
  let mut sections := Split ':' name
  if sections.length < 4 ∨ sections.length ≥ UrnDevMaxSectionCount then
    return (UrnDev.zero, errorsNew "invalid input".toList)
  if ToLower uni (← sections[0]?) ≠ "urn".toList then
    return (UrnDev.zero, errorsNew "invalid input (missing urn)".toList)
  if ToLower uni (← sections[1]?) ≠ "dev".toList then
    return (UrnDev.zero, errorsNew "invalid input (missing dev)".toList)
  out := { out with Subtype := ← sections[2]? }
  let componentPart := Split '_' (← sections[sections.length - 1]?)
  if componentPart.length > 1 then
    sections ← assign sections (sections.length - 1) (← componentPart[0]?)
    let component ← sliceFrom componentPart 1
    out := { out with Component := some component }
    if ¬ component.all isValidIdentifier then
      return (UrnDev.zero, errorsNew "invalid input (componentpart)".toList)
  else
    out := { out with Component := some [] }
  let mut identifier ← sliceFrom sections 3
  out := { out with Identifier := some identifier }
  if ¬ identifier.all isValidIdentifier then
    return (UrnDev.zero, errorsNew "invalid input (identifier)".toList)
  if out.Subtype = "mac".toList then
    if sections.length = 5 then
      return (UrnDev.zero, errorsNew "invalid input (mac)".toList)
    identifier ← sliceFrom identifier 1
    out := { out with Identifier := some identifier }
    out := { out with Eui64Identifier := ← sections[3]? }
    if ¬ isValidEui64 out.Eui64Identifier then
      return (UrnDev.zero, errorsNew "invalid input (EUI-64)".toList)
  else if out.Subtype = "ow".toList then
    if sections.length = 5 then
      return (UrnDev.zero, errorsNew "invalid input (ow)".toList)
    identifier ← sliceFrom identifier 1
    out := { out with Identifier := some identifier }
    out := { out with OwIdentifier := ← sections[3]? }
    if ¬ isValidOwAddress out.OwIdentifier then
      return (UrnDev.zero, errorsNew "invalid input (ow)".toList)
  else if out.Subtype = "org".toList then
    let org := SplitN '-' (← sections[3]?) 2
    if org.length ≠ 2 then
      return (UrnDev.zero, errorsNew "invalid input (org)".toList)
    out := { out with Organization := ← org[0]? }
    if ¬ isValidPosNumber out.Organization then
      return (UrnDev.zero, errorsNew "invalid input (org)".toList)
    if ¬ isValidIdentifier (← org[1]?) then
      return (UrnDev.zero, errorsNew "invalid input (org)".toList)
    identifier ← assign identifier 0 (← org[1]?)
    out := { out with Identifier := some identifier }
  else if out.Subtype = "os".toList then
    identifier ← sliceFrom identifier 1
    out := { out with Identifier := some identifier }
    let os := SplitN '-' (← sections[3]?) 2
    if os.length ≠ 2 then
      return (UrnDev.zero, errorsNew "invalid input (os)".toList)
    out := { out with Organization := ← os[0]? }
    if ¬ isValidPosNumber out.Organization then
      return (UrnDev.zero, errorsNew "invalid input (os)".toList)
    out := { out with Serial := ← os[1]? }
    if ¬ isValidIdentifier out.Serial then
      return (UrnDev.zero, errorsNew "invalid input (os)".toList)
  else if out.Subtype = "ops".toList then
    identifier ← sliceFrom identifier 1
    out := { out with Identifier := some identifier }
    let ops := Split '-' (← sections[3]?)
    if ops.length ≠ 3 then
      return (UrnDev.zero, errorsNew "invalid input (ops)".toList)
    out := { out with Organization := ← ops[0]? }
    if ¬ isValidPosNumber out.Organization then
      return (UrnDev.zero, errorsNew "invalid input (ops)".toList)
    out := { out with Product := ← ops[1]? }
    if ¬ isValidIdentifierNoDash out.Product then
      return (UrnDev.zero, errorsNew "invalid input (ops)".toList)
    out := { out with Serial := ← ops[2]? }
    if ¬ isValidIdentifier out.Serial then
      return (UrnDev.zero, errorsNew "invalid input (ops)".toList)
  else
    if ¬ isValidSubType out.Subtype then
      return (UrnDev.zero, errorsNew ("invalid sub type (".toList ++ out.Subtype ++ ")".toList))
  return (out, none)

/-! ## Reading of `Parse` by stages

`Parse` is one function; the definitions below name its stages so that the
properties can be proved stage by stage. `Parse_sections` shows that they
compute what `Parse` computes. -/

/-- Failure return `UrnDev{}, errors.New(msg)`. -/
def failWith (msg : Str) : UrnDev × Option Str := (UrnDev.zero, errorsNew msg)

/-- Component extraction (lines 149-163) on the sections from index 3 on: the last
section is cut at its first underscore, the pieces after it are the components. -/
def stripLast (ids : List Str) : List Str × List Str :=
  let componentPart := Split '_' (ids.getLastD [])
  (ids.dropLast ++ [componentPart.headD []], componentPart.tail)

/-- The subtype switch (lines 172-262) on the subtype `st`, the components and the
identifiers `ids = sections[3:]`, once both validation loops have passed. -/
def dispatch (name st : Str) (comps ids : List Str) : Option (UrnDev × Option Str) :=
  match ids with
  | [] => none
  | s3 :: more =>
    let out : UrnDev :=
      { FullName := name, Subtype := st, Organization := [], Product := [], Serial := [],
        Component := some comps, Identifier := some (s3 :: more),
        Eui64Identifier := [], OwIdentifier := [] }
    if st = "mac".toList then
      if more.length = 1 then some (failWith "invalid input (mac)".toList)
      else if ¬ isValidEui64 s3 then some (failWith "invalid input (EUI-64)".toList)
      else some ({ out with Identifier := some more, Eui64Identifier := s3 }, none)
    else if st = "ow".toList then
      if more.length = 1 then some (failWith "invalid input (ow)".toList)
      else if ¬ isValidOwAddress s3 then some (failWith "invalid input (ow)".toList)
      else some ({ out with Identifier := some more, OwIdentifier := s3 }, none)
    else if st = "org".toList then
      match SplitN '-' s3 2 with
      | [o, i] =>
        if ¬ isValidPosNumber o then some (failWith "invalid input (org)".toList)
        else if ¬ isValidIdentifier i then some (failWith "invalid input (org)".toList)
        else some ({ out with Organization := o, Identifier := some (i :: more) }, none)
      | _ => some (failWith "invalid input (org)".toList)
    else if st = "os".toList then
      match SplitN '-' s3 2 with
      | [o, s] =>
        if ¬ isValidPosNumber o then some (failWith "invalid input (os)".toList)
        else if ¬ isValidIdentifier s then some (failWith "invalid input (os)".toList)
        else some ({ out with Organization := o, Serial := s, Identifier := some more }, none)
      | _ => some (failWith "invalid input (os)".toList)
    else if st = "ops".toList then
      match Split '-' s3 with
      | [o, p, s] =>
        if ¬ isValidPosNumber o then some (failWith "invalid input (ops)".toList)
        else if ¬ isValidIdentifierNoDash p then some (failWith "invalid input (ops)".toList)
        else if ¬ isValidIdentifier s then some (failWith "invalid input (ops)".toList)
        else some ({ out with Organization := o, Product := p, Serial := s,
                              Identifier := some more }, none)
      | _ => some (failWith "invalid input (ops)".toList)
    else if ¬ isValidSubType st then
      some (failWith ("invalid sub type (".toList ++ st ++ ")".toList))
    else some (out, none)

/-- Stages of `Parse` after the section count check, on the sections
`s0 :: s1 :: st :: ids`. -/
def parseSections (uni : Char → Char) (name s0 s1 st : Str) (ids : List Str) :
    Option (UrnDev × Option Str) :=
  if ToLower uni s0 ≠ "urn".toList then
    some (failWith "invalid input (missing urn)".toList)
  else if ToLower uni s1 ≠ "dev".toList then
    some (failWith "invalid input (missing dev)".toList)
  else if ¬ (stripLast ids).2.all isValidIdentifier then
    some (failWith "invalid input (componentpart)".toList)
  else if ¬ (stripLast ids).1.all isValidIdentifier then
    some (failWith "invalid input (identifier)".toList)
  else dispatch name st (stripLast ids).2 (stripLast ids).1

/-! ## Names put together from their pieces -/

/-- Text `sep + x1 + sep + x2 + ...`: every piece preceded by the separator. -/
def withSep (sep : Char) : List Str → Str
  | [] => []
  | x :: xs => sep :: (x ++ withSep sep xs)

/-- Text `s0 + ":" + s1 + ":" + st + ":" + b + ":" + i1 + ... + ":" + ik + "_" + c1 + ... + "_" + cm`. -/
def build (s0 s1 st b : Str) (ids cs : List Str) : Str :=
  s0 ++ ':' :: (s1 ++ ':' :: (st ++ ':' :: ((b ++ withSep ':' ids) ++ withSep '_' cs)))

/-! ## Names that differ in ASCII letter case only -/

/-- ASCII letter case folded away: `A`-`Z` go to `a`-`z`, every other character stays. -/
def asciiLower (c : Char) : Char :=
  if 65 ≤ c.toNat ∧ c.toNat ≤ 90 then Char.ofNat (c.toNat + 32) else c

/-- Sections of a name with the ASCII letter case of the first two folded away. Two names have
the same folded sections exactly when one comes from the other by changing the ASCII letter
case of characters of its first two sections only. -/
def foldSections (sections : List Str) : List Str :=
  (sections.take 2).map (fun s => s.map asciiLower) ++ sections.drop 2

/-! ## Lemmas on the library functions -/

theorem Split_ne_nil (sep : Char) (s : Str) : Split sep s ≠ [] := by
  induction s with
  | nil => simp [Split]
  | cons c cs ih =>
    unfold Split
    split
    · simp
    · split <;> simp

theorem Split_tail_nil (sep : Char) (s : Str) (h : (Split sep s).tail = []) :
    Split sep s = [s] := by
  induction s with
  | nil => simp [Split]
  | cons c cs ih =>
    unfold Split at h ⊢
    split
    · rename_i hc
      simp [hc] at h
      exact absurd h (Split_ne_nil sep cs)
    · rename_i hc
      simp only [hc, if_false] at h
      split
      · rename_i h0; exact absurd h0 (Split_ne_nil sep cs)
      · rename_i piece more h0
        rw [h0] at h ih
        simp at h
        subst h
        simp at ih
        simp [ih]

theorem getElem?_last_cons {α : Type} (x d : α) (l : List α) :
    (x :: l)[l.length]? = some ((x :: l).getLastD d) := by
  induction l generalizing x with
  | nil => simp
  | cons y l ih =>
    have := ih y
    simp only [List.length_cons, List.getElem?_cons_succ, this]
    simp

theorem set_last_cons {α : Type} (x v : α) (l : List α) :
    (x :: l).set l.length v = (x :: l).dropLast ++ [v] := by
  induction l generalizing x with
  | nil => simp
  | cons y l ih => simp [ih y]

theorem dropLast_append_getLastD {α : Type} (x d : α) (l : List α) :
    (x :: l).dropLast ++ [(x :: l).getLastD d] = x :: l := by
  induction l generalizing x with
  | nil => simp
  | cons y l ih =>
    have := ih y
    simp only [List.dropLast_cons₂, List.cons_append, List.getLastD_cons] at this ⊢
    rw [this]

set_option maxHeartbeats 1000000 in
theorem Parse_sections (uni : Char → Char) (name s0 s1 st s3 : Str) (rest : List Str)
    (hS : Split ':' name = s0 :: s1 :: st :: s3 :: rest) (hlen : rest.length < 12) :
    Parse uni name = parseSections uni name s0 s1 st (s3 :: rest) := by
  have hne := Split_ne_nil '_' ((s3 :: rest).getLastD [])
  have htl := Split_tail_nil '_' ((s3 :: rest).getLastD [])
  unfold Parse
  simp only [hS]
  simp only [List.length_cons, UrnDevMaxSectionCount, show ¬ (rest.length + 1 + 1 + 1 + 1 < 4 ∨ rest.length + 1 + 1 + 1 + 1 ≥ 16) by omega, if_false, List.getElem?_cons_zero, List.getElem?_cons_succ, Option.pure_def, Option.bind_eq_bind, Option.some_bind, Nat.add_sub_cancel, getElem?_last_cons _ [], List.set_cons_succ, set_last_cons, assign, sliceFrom]
  unfold parseSections stripLast
  have hd := dropLast_append_getLastD s3 [] rest
  generalize (s3 :: rest).getLastD [] = last at *
  generalize hcp : Split '_' last = cp at *
  have hlen' : ((s3 :: rest).dropLast ++ [cp.headD []]).length = rest.length + 1 := by simp
  have key : ((s3 :: rest).dropLast ++ [cp.headD []]) = s3 :: rest ∨ cp.length > 1 := by
    rcases cp with _ | ⟨c0, _ | ⟨c1, comps⟩⟩
    · exact absurd rfl hne
    · have hc : c0 = last := by simpa using htl rfl
      subst hc
      exact Or.inl hd
    · right; simp
  rcases cp with _ | ⟨c0, comps⟩
  · exact absurd rfl hne
  simp only [List.headD_cons, List.tail_cons, List.length_cons, List.getElem?_cons_zero, Option.some_bind,
    show 1 ≤ comps.length + 1 by omega, show 3 ≤ rest.length + 1 + 1 + 1 + 1 by omega, if_true, Nat.lt_succ_self, List.drop_succ_cons, List.drop_zero,
    List.length_set] at *
  generalize (s3 :: rest).dropLast ++ [c0] = ids at *
  rcases ids with _ | ⟨s3', more⟩
  · simp at hlen'
  have hm : more.length = rest.length := by simpa using hlen'
  by_cases h0 : ToLower uni s0 = "urn".toList
  swap
  · simp only [h0, ne_eq, not_false_eq_true, if_true, failWith, ite_self]
  by_cases h1 : ToLower uni s1 = "dev".toList
  swap
  · simp only [h0, h1, ne_eq, not_false_eq_true, not_true_eq_false, if_true, if_false, failWith, ite_self]
  simp only [h0, h1, ne_eq, not_true_eq_false, if_false]
  have hfive : (rest.length + 1 + 1 + 1 + 1 = 5) = (more.length = 1) := by
    rw [hm]; exact propext ⟨fun h => by omega, fun h => by omega⟩
  simp only [hfive]
  rcases comps with _ | ⟨c1, comps⟩
  · have hk : s3' :: more = s3 :: rest := by simpa using key
    cases hk
    simp only [List.length_nil, gt_iff_lt, Nat.lt_irrefl, if_false, Nat.zero_add, List.all_nil,
      not_true_eq_false, Option.some_bind, List.drop_succ_cons, List.drop_zero, List.length_cons,
      show 1 ≤ rest.length + 1 by omega, if_true, Nat.zero_lt_succ, List.set_cons_zero]
    by_cases hi : ¬(s3 :: rest).all isValidIdentifier = true
    · simp only [if_pos hi, failWith]
    simp only [if_neg hi]
    unfold dispatch
    simp only [failWith]
    by_cases hmac : st = "mac".toList
    · simp only [if_pos hmac]
      split_ifs <;> rfl
    simp only [if_neg hmac]
    by_cases how : st = "ow".toList
    · simp only [if_pos how]
      split_ifs <;> rfl
    simp only [if_neg how]
    by_cases horg : st = "org".toList
    · simp only [if_pos horg]
      rcases hN : SplitN '-' s3 2 with _ | ⟨o, _ | ⟨i, _ | ⟨x, t⟩⟩⟩ <;> simp <;>
        split_ifs <;> rfl
    simp only [if_neg horg]
    by_cases hos : st = "os".toList
    · simp only [if_pos hos]
      rcases hN : SplitN '-' s3 2 with _ | ⟨o, _ | ⟨i, _ | ⟨x, t⟩⟩⟩ <;> simp <;>
        split_ifs <;> rfl
    simp only [if_neg hos]
    by_cases hops : st = "ops".toList
    · simp only [if_pos hops]
      rcases hP : Split '-' s3 with _ | ⟨o, _ | ⟨p, _ | ⟨s, _ | ⟨x, t⟩⟩⟩⟩ <;> simp <;>
        split_ifs <;> rfl
    simp only [if_neg hops]
    split_ifs <;> rfl
  · simp only [List.length_cons, gt_iff_lt, show 1 < comps.length + 1 + 1 by omega, if_true,
      List.getElem?_cons_succ, List.getElem?_cons_zero, Option.some_bind, List.drop_succ_cons,
      List.drop_zero, show 3 ≤ more.length + 1 + 1 + 1 + 1 by omega,
      show 1 ≤ more.length + 1 by omega, Nat.zero_lt_succ, List.set_cons_zero]
    by_cases hc : ¬(c1 :: comps).all isValidIdentifier = true
    · simp only [if_pos hc, failWith]
    simp only [if_neg hc]
    by_cases hi : ¬(s3' :: more).all isValidIdentifier = true
    · simp only [if_pos hi, failWith]
    simp only [if_neg hi]
    unfold dispatch
    simp only [failWith]
    by_cases hmac : st = "mac".toList
    · simp only [if_pos hmac]
      split_ifs <;> first | rfl | omega
    simp only [if_neg hmac]
    by_cases how : st = "ow".toList
    · simp only [if_pos how]
      split_ifs <;> first | rfl | omega
    simp only [if_neg how]
    by_cases horg : st = "org".toList
    · simp only [if_pos horg]
      rcases hN : SplitN '-' s3' 2 with _ | ⟨o, _ | ⟨i, _ | ⟨x, t⟩⟩⟩ <;> simp <;>
        split_ifs <;> rfl
    simp only [if_neg horg]
    by_cases hos : st = "os".toList
    · simp only [if_pos hos]
      rcases hN : SplitN '-' s3' 2 with _ | ⟨o, _ | ⟨i, _ | ⟨x, t⟩⟩⟩ <;> simp <;>
        split_ifs <;> rfl
    simp only [if_neg hos]
    by_cases hops : st = "ops".toList
    · simp only [if_pos hops]
      rcases hP : Split '-' s3' with _ | ⟨o, _ | ⟨p, _ | ⟨s, _ | ⟨x, t⟩⟩⟩⟩ <;> simp <;>
        split_ifs <;> rfl
    simp only [if_neg hops]
    split_ifs <;> rfl

/-! ## Shape of the results -/

theorem Parse_malformed (uni : Char → Char) (name : Str)
    (h : (Split ':' name).length < 4 ∨ 16 ≤ (Split ':' name).length) :
    Parse uni name = some (failWith "invalid input".toList) := by
  unfold Parse
  simp only [UrnDevMaxSectionCount, ge_iff_le, h, if_true, failWith]
  rfl

theorem sections_shape (name : Str)
    (h : ¬ ((Split ':' name).length < 4 ∨ 16 ≤ (Split ':' name).length)) :
    ∃ s0 s1 st s3 rest, Split ':' name = s0 :: s1 :: st :: s3 :: rest ∧ rest.length < 12 := by
  rcases hS : Split ':' name with _ | ⟨s0, _ | ⟨s1, _ | ⟨st, _ | ⟨s3, rest⟩⟩⟩⟩ <;>
    simp only [hS, List.length_nil, List.length_cons] at h
  · omega
  · omega
  · omega
  · omega
  · exact ⟨s0, s1, st, s3, rest, rfl, by omega⟩

theorem dispatch_shape (name st : Str) (comps ids : List Str) (r : UrnDev) (e : Option Str)
    (h : dispatch name st comps ids = some (r, e)) :
    (r = UrnDev.zero ∧ ∃ m, e = some m ∧ m ≠ "invalid input".toList) ∨
      (e = none ∧ r.FullName = name ∧ r.Subtype = st ∧ r.Component = some comps) := by
  unfold dispatch at h
  split at h
  · exact absurd h (by simp)
  · simp only [failWith, errorsNew] at h
    split_ifs at h <;> (try split at h) <;> (try split_ifs at h) <;> cases h <;>
      first
        | exact Or.inr ⟨rfl, rfl, rfl, rfl⟩
        | exact Or.inl ⟨rfl, _, rfl, by decide⟩
        | exact Or.inl ⟨rfl, _, rfl, by simp⟩

theorem parseSections_shape (uni : Char → Char) (name s0 s1 st : Str) (ids : List Str)
    (r : UrnDev) (e : Option Str) (h : parseSections uni name s0 s1 st ids = some (r, e)) :
    (r = UrnDev.zero ∧ ∃ m, e = some m ∧ m ≠ "invalid input".toList) ∨
      (e = none ∧ r.FullName = name ∧ r.Subtype = st ∧
        r.Component = some (stripLast ids).2) := by
  unfold parseSections at h
  simp only [failWith, errorsNew] at h
  split_ifs at h <;>
    first
      | exact dispatch_shape _ _ _ _ _ _ h
      | (cases h; exact Or.inl ⟨rfl, _, rfl, by decide⟩)

theorem Parse_shape (uni : Char → Char) (name : Str) (r : UrnDev) (e : Option Str)
    (h : Parse uni name = some (r, e)) :
    (r = UrnDev.zero ∧ e = some "invalid input".toList ∧
        ((Split ':' name).length < 4 ∨ 16 ≤ (Split ':' name).length)) ∨
      (¬ ((Split ':' name).length < 4 ∨ 16 ≤ (Split ':' name).length) ∧
        ((r = UrnDev.zero ∧ ∃ m, e = some m ∧ m ≠ "invalid input".toList) ∨
          (e = none ∧ r.FullName = name))) := by
  by_cases hb : (Split ':' name).length < 4 ∨ 16 ≤ (Split ':' name).length
  · rw [Parse_malformed uni name hb] at h
    cases h
    exact Or.inl ⟨rfl, rfl, hb⟩
  · obtain ⟨s0, s1, st, s3, rest, hS, hlen⟩ := sections_shape name hb
    rw [Parse_sections uni name s0 s1 st s3 rest hS hlen] at h
    rcases parseSections_shape _ _ _ _ _ _ _ _ h with h1 | h1
    · exact Or.inr ⟨hb, Or.inl h1⟩
    · exact Or.inr ⟨hb, Or.inr ⟨h1.1, h1.2.1⟩⟩

/-! ## Splitting a string that was put together from pieces -/

theorem Split_no_sep (sep : Char) (a : Str) (h : sep ∉ a) : Split sep a = [a] := by
  induction a with
  | nil => rfl
  | cons c cs ih =>
    have hc : ¬ c = sep := fun e => h (by simp [e])
    have hcs : sep ∉ cs := fun e => h (by simp [e])
    simp [Split, hc, ih hcs]

theorem Split_append_sep (sep : Char) (a b : Str) (h : sep ∉ a) :
    Split sep (a ++ sep :: b) = a :: Split sep b := by
  induction a with
  | nil => simp [Split]
  | cons c cs ih =>
    have hc : ¬ c = sep := fun e => h (by simp [e])
    have hcs : sep ∉ cs := fun e => h (by simp [e])
    simp [Split, hc, ih hcs]

theorem Split_withSep (sep : Char) (a : Str) (xs : List Str) (h : sep ∉ a)
    (hx : ∀ x ∈ xs, sep ∉ x) : Split sep (a ++ withSep sep xs) = a :: xs := by
  induction xs generalizing a with
  | nil => simpa [withSep] using Split_no_sep sep a h
  | cons x xs ih =>
    have hx1 : sep ∉ x := hx x (by simp)
    have hx2 : ∀ y ∈ xs, sep ∉ y := fun y hy => hx y (by simp [hy])
    simp only [withSep]
    rw [Split_append_sep sep a _ h, ih x hx1 hx2]

theorem Split_append_right (sep : Char) (a b : Str) (h : sep ∉ b) :
    Split sep (a ++ b) = (Split sep a).dropLast ++ [(Split sep a).getLastD [] ++ b] := by
  induction a with
  | nil => simpa [Split] using Split_no_sep sep b h
  | cons c cs ih =>
    by_cases hc : c = sep
    · have hne := Split_ne_nil sep cs
      rcases hS : Split sep cs with _ | ⟨p, more⟩
      · exact absurd hS hne
      · simp [Split, hc, ih, hS]
    · have hne := Split_ne_nil sep cs
      rcases hS : Split sep cs with _ | ⟨p, more⟩
      · exact absurd hS hne
      · rw [hS] at ih
        rcases more with _ | ⟨q, more⟩
        · simp [Split, hc, ih, hS]
        · simp [Split, hc, ih, hS]

theorem SplitN_two (sep : Char) (a b : Str) (h : sep ∉ a) :
    SplitN sep (a ++ sep :: b) 2 = [a, b] := by
  induction a with
  | nil => simp [SplitN]
  | cons c cs ih =>
    have hc : ¬ c = sep := fun e => h (by simp [e])
    have hcs : sep ∉ cs := fun e => h (by simp [e])
    simp [SplitN, hc, ih hcs]

theorem stripLast_built (b : Str) (ids cs : List Str) (hb : ∀ x ∈ b :: ids, '_' ∉ x) (hc : ∀ c ∈ cs, '_' ∉ c) :
    stripLast ((b :: ids).dropLast ++ [(b :: ids).getLastD [] ++ withSep '_' cs]) =
      (b :: ids, cs) := by
  have hmem : (b :: ids).getLastD [] ∈ b :: ids := by
    have := dropLast_append_getLastD b [] ids
    rw [← this]
    simp
  have hlast : '_' ∉ (b :: ids).getLastD [] := hb _ hmem
  unfold stripLast
  simp only [List.getLastD_concat, List.dropLast_concat]
  rw [Split_withSep '_' _ cs hlast hc]
  simp only [List.headD_cons, List.tail_cons, dropLast_append_getLastD]

theorem Parse_build (uni : Char → Char) (s0 s1 st b : Str) (ids cs : List Str)
    (h0 : ':' ∉ s0) (h1 : ':' ∉ s1) (ht : ':' ∉ st)
    (hb : ∀ x ∈ b :: ids, ':' ∉ x ∧ '_' ∉ x) (hc : ∀ c ∈ cs, ':' ∉ c ∧ '_' ∉ c)
    (hl : ids.length < 12) :
    ∃ L, Parse uni (build s0 s1 st b ids cs) =
        parseSections uni (build s0 s1 st b ids cs) s0 s1 st L ∧
      stripLast L = (b :: ids, cs) := by
  have hW : ':' ∉ withSep '_' cs := by
    clear hb hl
    induction cs with
    | nil => simp [withSep]
    | cons c cs ih =>
      have h1 := (hc c (by simp)).1
      have h2 := ih (fun x hx => hc x (by simp [hx]))
      simp [withSep, h1, h2]
  have hS : Split ':' (build s0 s1 st b ids cs) =
      s0 :: s1 :: st :: ((b :: ids).dropLast ++ [(b :: ids).getLastD [] ++ withSep '_' cs]) := by
    unfold build
    rw [Split_append_sep ':' s0 _ h0, Split_append_sep ':' s1 _ h1, Split_append_sep ':' st _ ht,
      Split_append_right ':' _ _ hW,
      Split_withSep ':' b ids (hb b (by simp)).1 (fun x hx => (hb x (by simp [hx])).1)]
  refine ⟨_, ?_, stripLast_built b ids cs (fun x hx => (hb x hx).2) (fun c hx => (hc c hx).2)⟩
  have hlen : ((b :: ids).dropLast ++ [(b :: ids).getLastD [] ++ withSep '_' cs]).length =
      ids.length + 1 := by simp
  generalize (b :: ids).dropLast ++ [(b :: ids).getLastD [] ++ withSep '_' cs] = L at hS hlen ⊢
  rcases L with _ | ⟨s3, rest⟩
  · simp at hlen
  · exact Parse_sections uni _ s0 s1 st s3 rest hS (by simp at hlen; omega)

/-! ## Character classes -/

theorem isReserved_ne_colon (c : Char) (h : isReserved c = true) : c ≠ ':' := by
  rintro rfl
  exact absurd h (by decide)

theorem isReserved_ne_underscore (c : Char) (h : isReserved c = true) : c ≠ '_' := by
  rintro rfl
  exact absurd h (by decide)

theorem isReservedNoDash_ne_dash (c : Char) (h : isReservedNoDash c = true) : c ≠ '-' := by
  rintro rfl
  exact absurd h (by decide)

theorem isDigit_ne_dash (c : Char) (h : isDigit c = true) : c ≠ '-' := by
  rintro rfl
  exact absurd h (by decide)

theorem isReserved_of_noDash (c : Char) (h : isReservedNoDash c = true) : isReserved c = true := by
  simp [isReserved, h]

theorem isReservedNoDash_of_isDigit (c : Char) (h : isDigit c = true) :
    isReservedNoDash c = true := by
  simp [isReservedNoDash, h]

theorem isDigit_of_isNzDigit (c : Char) (h : isNzDigit c = true) : isDigit c = true := by
  simp only [isNzDigit, isDigit, inRange, Bool.and_eq_true, decide_eq_true_eq] at h ⊢
  have : '0'.toNat ≤ '1'.toNat := by decide
  exact ⟨by omega, h.2⟩

theorem isReserved_of_isHexDigit (c : Char) (h : isHexDigit c = true) : isReserved c = true := by
  simp only [isHexDigit, isReserved, isReservedNoDash, isLower, isDigit, inRange, Bool.or_eq_true,
    Bool.and_eq_true, decide_eq_true_eq] at h ⊢
  have : 'f'.toNat ≤ 'z'.toNat := by decide
  rcases h with h | h
  · exact Or.inl (Or.inl (Or.inr h))
  · exact Or.inl (Or.inl (Or.inl (Or.inr ⟨h.1, by omega⟩)))

theorem isReservedNoDash_of_isLowerOrDigit (c : Char) (h : isLowerOrDigit c = true) :
    isReservedNoDash c = true := by
  simp only [isLowerOrDigit, Bool.or_eq_true] at h
  rcases h with h | h <;> simp [isReservedNoDash, h]

theorem utf8Size_of_isHexDigit (c : Char) (h : isHexDigit c = true) : c.utf8Size = 1 := by
  simp only [isHexDigit, isDigit, inRange, Bool.or_eq_true, Bool.and_eq_true,
    decide_eq_true_eq] at h
  have h9 : '9'.toNat = 57 := by decide
  have hf : 'f'.toNat = 102 := by decide
  have hle : c.toNat ≤ 127 := by omega
  have hv : c.val ≤ 127 := by
    show c.val.toNat ≤ 127
    exact hle
  simp [Char.utf8Size, hv]

/-! ## The patterns as properties of the text -/

theorem DevUrnReservedRegEx_iff (s : Str) :
    DevUrnReservedRegEx s = true ↔ s ≠ [] ∧ ∀ c ∈ s, isReserved c = true := by
  cases s with
  | nil => simp [DevUrnReservedRegEx]
  | cons c cs => simp [DevUrnReservedRegEx]

theorem DevUrnReservedNoDashRegEx_iff (s : Str) :
    DevUrnReservedNoDashRegEx s = true ↔ s ≠ [] ∧ ∀ c ∈ s, isReservedNoDash c = true := by
  cases s with
  | nil => simp [DevUrnReservedNoDashRegEx]
  | cons c cs => simp [DevUrnReservedNoDashRegEx]

theorem HexStringRegEx_aux (n : Nat) :
    ∀ s : Str, s.length ≤ n →
      (HexStringRegEx s = true ↔ s ≠ [] ∧ s.length % 2 = 0 ∧ ∀ c ∈ s, isHexDigit c = true) := by
  induction n using Nat.strong_induction_on with
  | _ n ih =>
    intro s hs
    rcases s with _ | ⟨a, _ | ⟨b, rest⟩⟩
    · simp [HexStringRegEx]
    · simp [HexStringRegEx]
    · rcases rest with _ | ⟨c, rest⟩
      · simp [HexStringRegEx]
      · have hrec := ih (c :: rest).length (by simp at hs ⊢; omega) (c :: rest) (le_refl _)
        simp only [HexStringRegEx, List.isEmpty_cons, Bool.false_or, Bool.and_eq_true, hrec]
        simp only [List.length_cons, List.mem_cons, ne_eq, reduceCtorEq, not_false_eq_true,
          true_and, forall_eq_or_imp]
        constructor
        · rintro ⟨⟨ha, hb⟩, hl, hc, hr⟩
          exact ⟨by omega, ha, hb, hc, hr⟩
        · rintro ⟨hl, ha, hb, hc, hr⟩
          exact ⟨⟨ha, hb⟩, by omega, hc, hr⟩

theorem HexStringRegEx_iff (s : Str) :
    HexStringRegEx s = true ↔ s ≠ [] ∧ s.length % 2 = 0 ∧ ∀ c ∈ s, isHexDigit c = true :=
  HexStringRegEx_aux s.length s (le_refl _)

theorem len_of_hex (s : Str) (h : ∀ c ∈ s, isHexDigit c = true) : len s = s.length := by
  induction s with
  | nil => rfl
  | cons c cs ih =>
    have h1 := utf8Size_of_isHexDigit c (h c (by simp))
    have h2 := ih (fun x hx => h x (by simp [hx]))
    simp only [len, List.map_cons, List.sum_cons, List.length_cons] at h2 ⊢
    omega

theorem isValidEui64_iff (s : Str) :
    isValidEui64 s = true ↔ s.length = 16 ∧ ∀ c ∈ s, isHexDigit c = true := by
  unfold isValidEui64
  constructor
  · intro h
    split at h
    · exact absurd h (by simp)
    · rename_i hl
      have hh := (HexStringRegEx_iff s).1 h
      have := len_of_hex s hh.2.2
      exact ⟨by omega, hh.2.2⟩
  · rintro ⟨hl, hh⟩
    have := len_of_hex s hh
    rw [if_neg (by omega)]
    exact (HexStringRegEx_iff s).2 ⟨by rintro rfl; simp at hl, by omega, hh⟩

theorem isValidOwAddress_iff (s : Str) :
    isValidOwAddress s = true ↔ s.length = 16 ∧ ∀ c ∈ s, isHexDigit c = true :=
  isValidEui64_iff s

theorem isValidIdentifier_iff (s : Str) :
    isValidIdentifier s = true ↔ s ≠ [] ∧ ∀ c ∈ s, isReserved c = true :=
  DevUrnReservedRegEx_iff s

theorem not_mem_of_isValidIdentifier (s : Str) (h : isValidIdentifier s = true) :
    ':' ∉ s ∧ '_' ∉ s := by
  have hh := ((isValidIdentifier_iff s).1 h).2
  exact ⟨fun hm => isReserved_ne_colon _ (hh _ hm) rfl,
    fun hm => isReserved_ne_underscore _ (hh _ hm) rfl⟩

theorem all_isValidIdentifier (xs : List Str) (h : ∀ x ∈ xs, isValidIdentifier x = true) :
    xs.all isValidIdentifier = true := by
  simpa using h

theorem ToLower_urn (uni : Char → Char) : ToLower uni "urn".toList = "urn".toList := by
  rfl

theorem ToLower_dev (uni : Char → Char) : ToLower uni "dev".toList = "dev".toList := by
  rfl

/-! ## Failure returns -/

/-- C1: whenever `Parse` returns an error, the record returned with it is `UrnDev{}`: the
seven string fields are empty and `Component` and `Identifier` are nil. -/
theorem C1_error_returns_zero_record (uni : Char → Char) (name : Str) (r : UrnDev) (e : Str)
    (h : Parse uni name = some (r, some e)) :
    r.FullName = [] ∧ r.Subtype = [] ∧ r.Organization = [] ∧ r.Product = [] ∧ r.Serial = [] ∧
      r.Eui64Identifier = [] ∧ r.OwIdentifier = [] ∧ r.Component = none ∧ r.Identifier = none := by
  have hz : r = UrnDev.zero := by
    rcases Parse_shape uni name r (some e) h with h1 | ⟨_, h1 | h1⟩
    · exact h1.1
    · exact h1.1
    · exact absurd h1.1 (by simp)
  subst hz
  exact ⟨rfl, rfl, rfl, rfl, rfl, rfl, rfl, rfl, rfl⟩

theorem C1_error_returns_zero_record_witness :
    Parse id "urn:dev:mac:0024beffff804ff1:x".toList =
        some (UrnDev.zero, some "invalid input (mac)".toList) ∧
      (UrnDev.zero.FullName = [] ∧ UrnDev.zero.Subtype = [] ∧ UrnDev.zero.Organization = [] ∧
        UrnDev.zero.Product = [] ∧ UrnDev.zero.Serial = [] ∧ UrnDev.zero.Eui64Identifier = [] ∧
        UrnDev.zero.OwIdentifier = [] ∧ UrnDev.zero.Component = none ∧
        UrnDev.zero.Identifier = none) :=
  ⟨by decide,
    C1_error_returns_zero_record id "urn:dev:mac:0024beffff804ff1:x".toList UrnDev.zero
      "invalid input (mac)".toList (by decide)⟩

/-- C2: `Parse` returns the error "invalid input" exactly when the number of sections between
colons is below 4 or at least 16; "urn:dev:" and "urn:dev:mac" have 3 sections and fail so. -/
theorem C2_malformed_iff_section_count :
    (∀ (uni : Char → Char) (name : Str),
      (∃ r, Parse uni name = some (r, some "invalid input".toList)) ↔
        ((Split ':' name).length < 4 ∨ 16 ≤ (Split ':' name).length)) ∧
    (Split ':' "urn:dev:".toList).length = 3 ∧
    (Split ':' "urn:dev:mac".toList).length = 3 ∧
    (∀ uni : Char → Char,
      Parse uni "urn:dev:".toList = some (UrnDev.zero, some "invalid input".toList) ∧
      Parse uni "urn:dev:mac".toList = some (UrnDev.zero, some "invalid input".toList)) := by
  have main : ∀ (uni : Char → Char) (name : Str),
      (∃ r, Parse uni name = some (r, some "invalid input".toList)) ↔
        ((Split ':' name).length < 4 ∨ 16 ≤ (Split ':' name).length) := by
    intro uni name
    constructor
    · rintro ⟨r, h⟩
      rcases Parse_shape uni name r _ h with h1 | ⟨_, h1 | h1⟩
      · exact h1.2.2
      · obtain ⟨_, m, hm, hne⟩ := h1
        cases hm
        exact absurd rfl hne
      · exact absurd h1.1 (by simp)
    · intro hb
      exact ⟨UrnDev.zero, Parse_malformed uni name hb⟩
  refine ⟨main, by decide, by decide, fun uni => ⟨?_, ?_⟩⟩
  · exact Parse_malformed uni _ (Or.inl (by decide))
  · exact Parse_malformed uni _ (Or.inl (by decide))

/-! ## Accepted names -/

/-- C3: for `t` one of "mac" and "ow", a string `h` of 16 lowercase hex digits and components
`c1..cm` (non-empty, over `[A-Za-z0-9.-]`), `Parse("urn:dev:" + t + ":" + h + "_" + c1 + ... +
"_" + cm)` succeeds with `Subtype = t`, the address field of `t` equal to `h`, the other address
field empty, `Identifier = []`, `Component = [c1..cm]`, `Organization`, `Product`, `Serial` empty
and `FullName` the input. -/
theorem C3_mac_ow_accepted (uni : Char → Char) (t h : Str) (cs : List Str)
    (ht : t = "mac".toList ∨ t = "ow".toList)
    (hlen : h.length = 16) (hhex : ∀ c ∈ h, isHexDigit c = true)
    (hcs : ∀ c ∈ cs, c ≠ [] ∧ ∀ x ∈ c, isReserved x = true) :
    Parse uni ("urn:dev:".toList ++ t ++ ":".toList ++ h ++ withSep '_' cs) =
      some ({ FullName := "urn:dev:".toList ++ t ++ ":".toList ++ h ++ withSep '_' cs,
              Subtype := t, Organization := [], Product := [], Serial := [],
              Component := some cs, Identifier := some [],
              Eui64Identifier := if t = "mac".toList then h else [],
              OwIdentifier := if t = "ow".toList then h else [] }, none) := by
  have hname : "urn:dev:".toList ++ t ++ ":".toList ++ h ++ withSep '_' cs =
      build "urn".toList "dev".toList t h [] cs := by
    simp [build, withSep]
  have hvh : isValidIdentifier h = true :=
    (isValidIdentifier_iff h).2 ⟨by rintro rfl; simp at hlen,
      fun c hc => isReserved_of_isHexDigit c (hhex c hc)⟩
  have hvc : ∀ c ∈ cs, isValidIdentifier c = true := fun c hc => (isValidIdentifier_iff c).2 (hcs c hc)
  have htc : ':' ∉ t := by rcases ht with rfl | rfl <;> decide
  obtain ⟨L, hP, hL⟩ := Parse_build uni "urn".toList "dev".toList t h [] cs (by decide) (by decide)
    htc (by simpa using not_mem_of_isValidIdentifier h hvh)
    (fun c hc => not_mem_of_isValidIdentifier c (hvc c hc)) (by simp)
  have haddr : isValidEui64 h = true := (isValidEui64_iff h).2 ⟨hlen, hhex⟩
  have haddr2 : isValidOwAddress h = true := (isValidOwAddress_iff h).2 ⟨hlen, hhex⟩
  rw [hname, hP]
  unfold parseSections
  rw [hL]
  simp only [ToLower_urn, ToLower_dev, ne_eq, not_true_eq_false, if_false,
    all_isValidIdentifier cs hvc, List.all_cons, List.all_nil, hvh, Bool.and_true]
  rcases ht with rfl | rfl
  · simp [dispatch, haddr]
  · simp [dispatch, haddr2]

theorem C3_mac_ow_accepted_witness :
    ("ow".toList = "mac".toList ∨ "ow".toList = "ow".toList) ∧
    Parse id "urn:dev:ow:10e2073a01080063_a-b_c.d".toList =
      some ({ FullName := "urn:dev:ow:10e2073a01080063_a-b_c.d".toList,
              Subtype := "ow".toList, Organization := [], Product := [], Serial := [],
              Component := some ["a-b".toList, "c.d".toList], Identifier := some [],
              Eui64Identifier := [],
              OwIdentifier := "10e2073a01080063".toList }, none) :=
  ⟨by decide,
    C3_mac_ow_accepted id "ow".toList "10e2073a01080063".toList ["a-b".toList, "c.d".toList]
      (by decide) (by decide) (by decide) (by decide)⟩

theorem isValidPosNumber_cons (d : Char) (ds : Str) (hd : isNzDigit d = true)
    (hds : ∀ c ∈ ds, isDigit c = true) : isValidPosNumber (d :: ds) = true := by
  simp only [isValidPosNumber, PosNumberRegEx, hd, Bool.true_and, List.all_eq_true]
  exact hds

theorem posNumber_chars (d : Char) (ds : Str) (hd : isNzDigit d = true)
    (hds : ∀ c ∈ ds, isDigit c = true) : ∀ c ∈ d :: ds, isDigit c = true := by
  intro c hc
  rcases List.mem_cons.1 hc with rfl | hc
  · exact isDigit_of_isNzDigit _ hd
  · exact hds c hc

theorem posNumber_no_dash (d : Char) (ds : Str) (hd : isNzDigit d = true)
    (hds : ∀ c ∈ ds, isDigit c = true) : '-' ∉ d :: ds :=
  fun hm => isDigit_ne_dash _ (posNumber_chars d ds hd hds _ hm) rfl

theorem isValidIdentifier_org_body (d : Char) (ds i : Str) (hd : isNzDigit d = true)
    (hds : ∀ c ∈ ds, isDigit c = true) (hi : ∀ c ∈ i, isReserved c = true) :
    isValidIdentifier ((d :: ds) ++ '-' :: i) = true := by
  refine (isValidIdentifier_iff _).2 ⟨by simp, ?_⟩
  intro c hc
  rcases List.mem_append.1 hc with hc | hc
  · exact isReserved_of_noDash _ (isReservedNoDash_of_isDigit _ (posNumber_chars d ds hd hds c hc))
  · rcases List.mem_cons.1 hc with rfl | hc
    · decide
    · exact hi c hc

theorem sections_free (b : Str) (ids : List Str) (hb : isValidIdentifier b = true)
    (hi : ∀ x ∈ ids, isValidIdentifier x = true) : ∀ x ∈ b :: ids, ':' ∉ x ∧ '_' ∉ x := by
  intro x hx
  rcases List.mem_cons.1 hx with rfl | hx
  · exact not_mem_of_isValidIdentifier _ hb
  · exact not_mem_of_isValidIdentifier _ (hi x hx)

/-- C4: for a positive decimal number `o = d :: ds`, identifiers `i0, i1..ik` (`k ≤ 11`) and
components `c1..cm`, `Parse("urn:dev:org:" + o + "-" + i0 + ":" + i1 + ... + ":" + ik + "_" + c1 +
... + "_" + cm)` succeeds with `Subtype = "org"`, `Organization = o`, `Identifier = [i0, i1,
..., ik]`, `Component = [c1..cm]` and `Product`, `Serial`, `Eui64Identifier`, `OwIdentifier`
empty. -/
theorem C4_org_accepted (uni : Char → Char) (d : Char) (ds i0 : Str) (is cs : List Str)
    (hd : isNzDigit d = true) (hds : ∀ c ∈ ds, isDigit c = true)
    (hi : ∀ x ∈ i0 :: is, x ≠ [] ∧ ∀ c ∈ x, isReserved c = true) (hk : is.length ≤ 11)
    (hcs : ∀ c ∈ cs, c ≠ [] ∧ ∀ x ∈ c, isReserved x = true) :
    Parse uni ("urn:dev:org:".toList ++ (d :: ds) ++ "-".toList ++ i0 ++ withSep ':' is ++
        withSep '_' cs) =
      some ({ FullName := "urn:dev:org:".toList ++ (d :: ds) ++ "-".toList ++ i0 ++
                withSep ':' is ++ withSep '_' cs,
              Subtype := "org".toList, Organization := d :: ds, Product := [], Serial := [],
              Component := some cs, Identifier := some (i0 :: is),
              Eui64Identifier := [], OwIdentifier := [] }, none) := by
  have hname : "urn:dev:org:".toList ++ (d :: ds) ++ "-".toList ++ i0 ++ withSep ':' is ++
      withSep '_' cs = build "urn".toList "dev".toList "org".toList ((d :: ds) ++ '-' :: i0) is cs := by
    simp [build]
  have hvb := isValidIdentifier_org_body d ds i0 hd hds (hi i0 (by simp)).2
  have hv0 : isValidIdentifier i0 = true := (isValidIdentifier_iff i0).2 (hi i0 (by simp))
  have hvi : ∀ x ∈ is, isValidIdentifier x = true :=
    fun x hx => (isValidIdentifier_iff x).2 (hi x (by simp [hx]))
  have hvc : ∀ c ∈ cs, isValidIdentifier c = true := fun c hc => (isValidIdentifier_iff c).2 (hcs c hc)
  obtain ⟨L, hP, hL⟩ := Parse_build uni "urn".toList "dev".toList "org".toList
    ((d :: ds) ++ '-' :: i0) is cs (by decide) (by decide) (by decide)
    (sections_free _ is hvb hvi) (fun c hc => not_mem_of_isValidIdentifier c (hvc c hc))
    (by omega)
  rw [hname, hP]
  unfold parseSections
  rw [hL]
  simp only [ToLower_urn, ToLower_dev, ne_eq, not_true_eq_false, if_false,
    all_isValidIdentifier cs hvc, List.all_cons, hvb, all_isValidIdentifier is hvi, Bool.and_true]
  have hsp : SplitN '-' (d :: (ds ++ '-' :: i0)) 2 = [d :: ds, i0] :=
    SplitN_two '-' (d :: ds) i0 (posNumber_no_dash d ds hd hds)
  simp [dispatch, hsp, isValidPosNumber_cons d ds hd hds, hv0]

theorem C4_org_accepted_witness :
    isNzDigit '3' = true ∧
    Parse id "urn:dev:org:32473-foo-x:a:b.c_component_d".toList =
      some ({ FullName := "urn:dev:org:32473-foo-x:a:b.c_component_d".toList,
              Subtype := "org".toList, Organization := "32473".toList, Product := [],
              Serial := [], Component := some ["component".toList, "d".toList],
              Identifier := some ["foo-x".toList, "a".toList, "b.c".toList],
              Eui64Identifier := [], OwIdentifier := [] }, none) :=
  ⟨by decide,
    C4_org_accepted id '3' "2473".toList "foo-x".toList ["a".toList, "b.c".toList]
      ["component".toList, "d".toList] (by decide) (by decide) (by decide) (by decide)
      (by decide)⟩

/-- C5: for a positive decimal number `o = d :: ds`, an identifier `s` (dashes allowed),
identifiers `i1..ik` (`k ≤ 11`) and components `c1..cm`, `Parse("urn:dev:os:" + o + "-" + s + ":" +
i1 + ... + ":" + ik + "_" + c1 + ... + "_" + cm)` succeeds with `Subtype = "os"`,
`Organization = o`, `Serial = s` (only the first dash splits), `Identifier = [i1..ik]`,
`Component = [c1..cm]` and `Product` empty. -/
theorem C5_os_accepted (uni : Char → Char) (d : Char) (ds s : Str) (is cs : List Str)
    (hd : isNzDigit d = true) (hds : ∀ c ∈ ds, isDigit c = true)
    (hs : s ≠ [] ∧ ∀ c ∈ s, isReserved c = true)
    (hi : ∀ x ∈ is, x ≠ [] ∧ ∀ c ∈ x, isReserved c = true) (hk : is.length ≤ 11)
    (hcs : ∀ c ∈ cs, c ≠ [] ∧ ∀ x ∈ c, isReserved x = true) :
    Parse uni ("urn:dev:os:".toList ++ (d :: ds) ++ "-".toList ++ s ++ withSep ':' is ++
        withSep '_' cs) =
      some ({ FullName := "urn:dev:os:".toList ++ (d :: ds) ++ "-".toList ++ s ++
                withSep ':' is ++ withSep '_' cs,
              Subtype := "os".toList, Organization := d :: ds, Product := [], Serial := s,
              Component := some cs, Identifier := some is,
              Eui64Identifier := [], OwIdentifier := [] }, none) := by
  have hname : "urn:dev:os:".toList ++ (d :: ds) ++ "-".toList ++ s ++ withSep ':' is ++
      withSep '_' cs = build "urn".toList "dev".toList "os".toList ((d :: ds) ++ '-' :: s) is cs := by
    simp [build]
  have hvb := isValidIdentifier_org_body d ds s hd hds hs.2
  have hv0 : isValidIdentifier s = true := (isValidIdentifier_iff s).2 hs
  have hvi : ∀ x ∈ is, isValidIdentifier x = true :=
    fun x hx => (isValidIdentifier_iff x).2 (hi x hx)
  have hvc : ∀ c ∈ cs, isValidIdentifier c = true := fun c hc => (isValidIdentifier_iff c).2 (hcs c hc)
  obtain ⟨L, hP, hL⟩ := Parse_build uni "urn".toList "dev".toList "os".toList
    ((d :: ds) ++ '-' :: s) is cs (by decide) (by decide) (by decide)
    (sections_free _ is hvb hvi) (fun c hc => not_mem_of_isValidIdentifier c (hvc c hc))
    (by omega)
  rw [hname, hP]
  unfold parseSections
  rw [hL]
  simp only [ToLower_urn, ToLower_dev, ne_eq, not_true_eq_false, if_false,
    all_isValidIdentifier cs hvc, List.all_cons, hvb, all_isValidIdentifier is hvi, Bool.and_true]
  have hsp : SplitN '-' (d :: (ds ++ '-' :: s)) 2 = [d :: ds, s] :=
    SplitN_two '-' (d :: ds) s (posNumber_no_dash d ds hd hds)
  simp [dispatch, hsp, isValidPosNumber_cons d ds hd hds, hv0]

theorem C5_os_accepted_witness :
    isNzDigit '3' = true ∧
    Parse id "urn:dev:os:32473-12-34-56:a:b_c".toList =
      some ({ FullName := "urn:dev:os:32473-12-34-56:a:b_c".toList,
              Subtype := "os".toList, Organization := "32473".toList, Product := [],
              Serial := "12-34-56".toList, Component := some ["c".toList],
              Identifier := some ["a".toList, "b".toList],
              Eui64Identifier := [], OwIdentifier := [] }, none) :=
  ⟨by decide,
    C5_os_accepted id '3' "2473".toList "12-34-56".toList ["a".toList, "b".toList]
      ["c".toList] (by decide) (by decide) (by decide) (by decide) (by decide) (by decide)⟩

/-- C6, at the input "urn:dev:ops:32473-Refrigerator-50-02": the organization is a positive
number, the product a dash-free identifier and the serial "50-02" an identifier, and `Parse`
returns the error "invalid input (ops)". -/
theorem C6_ops_dashed_serial_rejected (uni : Char → Char) :
    isValidPosNumber "32473".toList = true ∧
    isValidIdentifierNoDash "Refrigerator".toList = true ∧
    isValidIdentifier "50-02".toList = true ∧
    Parse uni "urn:dev:ops:32473-Refrigerator-50-02".toList =
      some (UrnDev.zero, some "invalid input (ops)".toList) := by
  refine ⟨by decide, by decide, by decide, ?_⟩
  rfl

/-- C7: for a subtype `t = a :: as` (a lowercase letter, then lowercase letters or digits)
other than mac, ow, org, os, ops, identifiers `i1..ik` (`1 ≤ k ≤ 12`) and components `c1..cm`,
`Parse("urn:dev:" + t + ":" + i1 + ... + ":" + ik + "_" + c1 + ... + "_" + cm)` succeeds with
`Subtype = t`, `Identifier = [i1..ik]`, `Component = [c1..cm]` and `Organization`, `Product`,
`Serial`, `Eui64Identifier`, `OwIdentifier` empty. -/
theorem C7_other_accepted (uni : Char → Char) (a : Char) (as i1 : Str) (is cs : List Str)
    (ha : isLower a = true) (has : ∀ c ∈ as, isLowerOrDigit c = true)
    (hmac : a :: as ≠ "mac".toList) (how : a :: as ≠ "ow".toList)
    (horg : a :: as ≠ "org".toList) (hos : a :: as ≠ "os".toList)
    (hops : a :: as ≠ "ops".toList)
    (hi : ∀ x ∈ i1 :: is, x ≠ [] ∧ ∀ c ∈ x, isReserved c = true) (hk : is.length ≤ 11)
    (hcs : ∀ c ∈ cs, c ≠ [] ∧ ∀ x ∈ c, isReserved x = true) :
    Parse uni ("urn:dev:".toList ++ (a :: as) ++ ":".toList ++ i1 ++ withSep ':' is ++
        withSep '_' cs) =
      some ({ FullName := "urn:dev:".toList ++ (a :: as) ++ ":".toList ++ i1 ++
                withSep ':' is ++ withSep '_' cs,
              Subtype := a :: as, Organization := [], Product := [], Serial := [],
              Component := some cs, Identifier := some (i1 :: is),
              Eui64Identifier := [], OwIdentifier := [] }, none) := by
  have hname : "urn:dev:".toList ++ (a :: as) ++ ":".toList ++ i1 ++ withSep ':' is ++
      withSep '_' cs = build "urn".toList "dev".toList (a :: as) i1 is cs := by
    simp [build]
  have hv1 : isValidIdentifier i1 = true := (isValidIdentifier_iff i1).2 (hi i1 (by simp))
  have hvi : ∀ x ∈ is, isValidIdentifier x = true :=
    fun x hx => (isValidIdentifier_iff x).2 (hi x (by simp [hx]))
  have hvc : ∀ c ∈ cs, isValidIdentifier c = true := fun c hc => (isValidIdentifier_iff c).2 (hcs c hc)
  have hlow : isLowerOrDigit a = true := by simp [isLowerOrDigit, ha]
  have htc : ':' ∉ a :: as := by
    intro hm
    have : isLowerOrDigit ':' = true := by
      rcases List.mem_cons.1 hm with h | h
      · rw [h]; exact hlow
      · exact has _ h
    exact absurd this (by decide)
  have hst : isValidSubType (a :: as) = true := by
    simp only [isValidSubType, SubTypeRegEx, ha, Bool.true_and, List.all_eq_true]
    exact has
  obtain ⟨L, hP, hL⟩ := Parse_build uni "urn".toList "dev".toList (a :: as) i1 is cs
    (by decide) (by decide) htc
    (sections_free _ is hv1 hvi) (fun c hc => not_mem_of_isValidIdentifier c (hvc c hc))
    (by omega)
  rw [hname, hP]
  unfold parseSections
  rw [hL]
  simp only [ToLower_urn, ToLower_dev, ne_eq, not_true_eq_false, if_false,
    all_isValidIdentifier cs hvc, List.all_cons, hv1, all_isValidIdentifier is hvi, Bool.and_true]
  unfold dispatch
  simp only [if_neg hmac, if_neg how, if_neg horg, if_neg hos, if_neg hops, hst,
    not_true_eq_false, if_false]

theorem C7_other_accepted_witness :
    ("example".toList ≠ "mac".toList) ∧
    Parse id "urn:dev:example:new-1-2-3:x_comp".toList =
      some ({ FullName := "urn:dev:example:new-1-2-3:x_comp".toList,
              Subtype := "example".toList, Organization := [], Product := [], Serial := [],
              Component := some ["comp".toList],
              Identifier := some ["new-1-2-3".toList, "x".toList],
              Eui64Identifier := [], OwIdentifier := [] }, none) :=
  ⟨by decide,
    C7_other_accepted id 'e' "xample".toList "new-1-2-3".toList ["x".toList] ["comp".toList]
      (by decide) (by decide) (by decide) (by decide) (by decide) (by decide) (by decide)
      (by decide) (by decide) (by decide)⟩

/-! ## Rejected names -/

theorem stripLast_fst_ne_nil (ids : List Str) : (stripLast ids).1 ≠ [] := by
  simp [stripLast]

theorem isValidSubType_of_known (st : Str)
    (h : st = "mac".toList ∨ st = "ow".toList ∨ st = "org".toList ∨ st = "os".toList ∨
      st = "ops".toList) : isValidSubType st = true := by
  rcases h with rfl | rfl | rfl | rfl | rfl <;> decide

theorem dispatch_invalid_subtype (name st : Str) (comps ids : List Str)
    (hg : isValidSubType st = false) (hne : ids ≠ []) :
    dispatch name st comps ids =
      some (UrnDev.zero, some ("invalid sub type (".toList ++ st ++ ")".toList)) := by
  have h1 : st ≠ "mac".toList := fun e => by
    rw [isValidSubType_of_known st (Or.inl e)] at hg; exact absurd hg (by simp)
  have h2 : st ≠ "ow".toList := fun e => by
    rw [isValidSubType_of_known st (Or.inr (Or.inl e))] at hg; exact absurd hg (by simp)
  have h3 : st ≠ "org".toList := fun e => by
    rw [isValidSubType_of_known st (Or.inr (Or.inr (Or.inl e)))] at hg
    exact absurd hg (by simp)
  have h4 : st ≠ "os".toList := fun e => by
    rw [isValidSubType_of_known st (Or.inr (Or.inr (Or.inr (Or.inl e))))] at hg
    exact absurd hg (by simp)
  have h5 : st ≠ "ops".toList := fun e => by
    rw [isValidSubType_of_known st (Or.inr (Or.inr (Or.inr (Or.inr e))))] at hg
    exact absurd hg (by simp)
  rcases ids with _ | ⟨s3, more⟩
  · exact absurd rfl hne
  · unfold dispatch
    simp only [if_neg h1, if_neg h2, if_neg h3, if_neg h4, if_neg h5, hg, Bool.false_eq_true,
      not_false_eq_true, if_true, failWith, errorsNew]

theorem parseSections_invalid_subtype (uni : Char → Char) (name s0 s1 st : Str) (ids : List Str)
    (hg : isValidSubType st = false) :
    (∃ e, parseSections uni name s0 s1 st ids = some (UrnDev.zero, some e)) ∧
    (ToLower uni s0 = "urn".toList → ToLower uni s1 = "dev".toList →
      (stripLast ids).2.all isValidIdentifier = true →
      (stripLast ids).1.all isValidIdentifier = true →
      parseSections uni name s0 s1 st ids =
        some (UrnDev.zero, some ("invalid sub type (".toList ++ st ++ ")".toList))) := by
  have hd := dispatch_invalid_subtype name st (stripLast ids).2 (stripLast ids).1 hg
    (stripLast_fst_ne_nil ids)
  constructor
  · unfold parseSections
    simp only [failWith, errorsNew]
    split_ifs <;> first | exact ⟨_, rfl⟩ | exact ⟨_, hd⟩
  · intro h0 h1 hc hi
    unfold parseSections
    simp only [h0, h1, hc, hi, ne_eq, not_true_eq_false, if_false]
    exact hd

/-- C8: when section 2 of the input, the subtype, does not match the subtype grammar `^[a-z][0-9a-z]*$`
(so it is none of mac, ow, org, os, ops, which all match it), `Parse` fails; and when the
section count, the urn and dev literals, the component tokens and the identifiers are all
valid, the error is "invalid sub type (" + subtype + ")". -/
theorem C8_invalid_subtype_rejected (uni : Char → Char) (name st : Str)
    (h2 : (Split ':' name)[2]? = some st) (hg : isValidSubType st = false) :
    (∃ e, Parse uni name = some (UrnDev.zero, some e)) ∧
    (∀ s0 s1 ids, Split ':' name = s0 :: s1 :: st :: ids → 1 ≤ ids.length → ids.length ≤ 12 →
      ToLower uni s0 = "urn".toList → ToLower uni s1 = "dev".toList →
      (stripLast ids).2.all isValidIdentifier = true →
      (stripLast ids).1.all isValidIdentifier = true →
      Parse uni name =
        some (UrnDev.zero, some ("invalid sub type (".toList ++ st ++ ")".toList))) := by
  constructor
  · by_cases hb : (Split ':' name).length < 4 ∨ 16 ≤ (Split ':' name).length
    · exact ⟨_, Parse_malformed uni name hb⟩
    · obtain ⟨s0, s1, st', s3, rest, hS, hlen⟩ := sections_shape name hb
      rw [hS] at h2
      simp only [List.getElem?_cons_succ, List.getElem?_cons_zero, Option.some.injEq] at h2
      subst h2
      rw [Parse_sections uni name s0 s1 st' s3 rest hS hlen]
      exact (parseSections_invalid_subtype uni name s0 s1 st' (s3 :: rest) hg).1
  · intro s0 s1 ids hS h1 h12 hu hd hc hi
    rcases ids with _ | ⟨s3, rest⟩
    · simp at h1
    · rw [Parse_sections uni name s0 s1 st s3 rest hS (by simp at h12; omega)]
      exact (parseSections_invalid_subtype uni name s0 s1 st (s3 :: rest) hg).2 hu hd hc hi

theorem C8_invalid_subtype_rejected_witness :
    ((Split ':' "urn:dev:INVALID:new-1-2-3_comp".toList)[2]? = some "INVALID".toList ∧
      isValidSubType "INVALID".toList = false ∧
      Parse id "urn:dev:INVALID:new-1-2-3_comp".toList =
        some (UrnDev.zero, some "invalid sub type (INVALID)".toList)) ∧
    ((Split ':' "urn:dev:MAC:0024beffff804ff1".toList)[2]? = some "MAC".toList ∧
      isValidSubType "MAC".toList = false ∧
      Parse id "urn:dev:MAC:0024beffff804ff1".toList =
        some (UrnDev.zero, some "invalid sub type (MAC)".toList)) :=
  ⟨⟨by decide, by decide,
      (C8_invalid_subtype_rejected id "urn:dev:INVALID:new-1-2-3_comp".toList "INVALID".toList
        (by decide) (by decide)).2 "urn".toList "dev".toList ["new-1-2-3_comp".toList]
        (by decide) (by decide) (by decide) (by decide) (by decide) (by decide) (by decide)⟩,
    ⟨by decide, by decide,
      (C8_invalid_subtype_rejected id "urn:dev:MAC:0024beffff804ff1".toList "MAC".toList
        (by decide) (by decide)).2 "urn".toList "dev".toList ["0024beffff804ff1".toList]
        (by decide) (by decide) (by decide) (by decide) (by decide) (by decide) (by decide)⟩⟩

/-! ## The address subtypes -/

theorem dispatch_address (name st : Str) (comps ids : List Str) (r : UrnDev)
    (h : dispatch name st comps ids = some (r, none)) :
    r.Subtype = st ∧
    (st = "mac".toList → isValidEui64 r.Eui64Identifier = true ∧ r.OwIdentifier = []) ∧
    (st = "ow".toList → isValidOwAddress r.OwIdentifier = true ∧ r.Eui64Identifier = []) := by
  unfold dispatch at h
  split at h
  · exact absurd h (by simp)
  · simp only [failWith, errorsNew] at h
    by_cases hmac : st = "mac".toList
    · simp only [if_pos hmac] at h
      split_ifs at h with h1 h2 <;> cases h
      refine ⟨rfl, fun _ => ⟨by simpa using h2, rfl⟩, fun e => ?_⟩
      rw [hmac] at e
      exact absurd e (by decide)
    simp only [if_neg hmac] at h
    by_cases how : st = "ow".toList
    · simp only [if_pos how] at h
      split_ifs at h with h1 h2 <;> cases h
      exact ⟨rfl, fun e => absurd e hmac, fun _ => ⟨by simpa using h2, rfl⟩⟩
    simp only [if_neg how] at h
    refine ⟨?_, fun e => absurd e hmac, fun e => absurd e how⟩
    split_ifs at h <;> (try split at h) <;> (try split_ifs at h) <;> cases h <;> rfl

theorem Parse_success_dispatch (uni : Char → Char) (name : Str) (r : UrnDev)
    (h : Parse uni name = some (r, none)) :
    ∃ s0 s1 st s3 rest, Split ':' name = s0 :: s1 :: st :: s3 :: rest ∧ rest.length < 12 ∧
      ToLower uni s0 = "urn".toList ∧ ToLower uni s1 = "dev".toList ∧
      (stripLast (s3 :: rest)).2.all isValidIdentifier = true ∧
      (stripLast (s3 :: rest)).1.all isValidIdentifier = true ∧
      dispatch name st (stripLast (s3 :: rest)).2 (stripLast (s3 :: rest)).1 = some (r, none) := by
  by_cases hb : (Split ':' name).length < 4 ∨ 16 ≤ (Split ':' name).length
  · rw [Parse_malformed uni name hb] at h
    exact absurd h (by simp [failWith, errorsNew])
  · obtain ⟨s0, s1, st, s3, rest, hS, hlen⟩ := sections_shape name hb
    rw [Parse_sections uni name s0 s1 st s3 rest hS hlen] at h
    refine ⟨s0, s1, st, s3, rest, hS, hlen, ?_⟩
    unfold parseSections at h
    simp only [failWith, errorsNew] at h
    split_ifs at h with h0 h1 hc hi <;>
      first
        | exact ⟨by simpa using h0, by simpa using h1, by simpa using hc, by simpa using hi, h⟩
        | cases h

/-- C9: when `Parse` succeeds with `Subtype` "mac", `Eui64Identifier` has exactly 16 characters,
each in `0-9a-f`, and `OwIdentifier` is empty; when it succeeds with `Subtype` "ow",
`OwIdentifier` has exactly 16 characters, each in `0-9a-f`, and `Eui64Identifier` is empty. -/
theorem C9_address_fields (uni : Char → Char) (name : Str) (r : UrnDev)
    (h : Parse uni name = some (r, none)) :
    (r.Subtype = "mac".toList →
      r.Eui64Identifier.length = 16 ∧ (∀ c ∈ r.Eui64Identifier, isHexDigit c = true) ∧
        r.OwIdentifier = []) ∧
    (r.Subtype = "ow".toList →
      r.OwIdentifier.length = 16 ∧ (∀ c ∈ r.OwIdentifier, isHexDigit c = true) ∧
        r.Eui64Identifier = []) := by
  obtain ⟨s0, s1, st, s3, rest, _, _, _, _, _, _, hd⟩ := Parse_success_dispatch uni name r h
  obtain ⟨hst, hm, ho⟩ := dispatch_address _ _ _ _ _ hd
  constructor
  · intro e
    obtain ⟨ha, hz⟩ := hm (hst ▸ e)
    have := (isValidEui64_iff _).1 ha
    exact ⟨this.1, this.2, hz⟩
  · intro e
    obtain ⟨ha, hz⟩ := ho (hst ▸ e)
    have := (isValidOwAddress_iff _).1 ha
    exact ⟨this.1, this.2, hz⟩

theorem C9_address_fields_witness :
    Parse id "urn:dev:mac:0024beffff804ff1_c".toList =
      some ({ FullName := "urn:dev:mac:0024beffff804ff1_c".toList, Subtype := "mac".toList,
              Organization := [], Product := [], Serial := [], Component := some ["c".toList],
              Identifier := some [], Eui64Identifier := "0024beffff804ff1".toList,
              OwIdentifier := [] }, none) ∧
    ("0024beffff804ff1".toList.length = 16 ∧
      (∀ c ∈ "0024beffff804ff1".toList, isHexDigit c = true) ∧ ([] : Str) = []) :=
  ⟨by decide,
    (C9_address_fields id "urn:dev:mac:0024beffff804ff1_c".toList
      { FullName := "urn:dev:mac:0024beffff804ff1_c".toList, Subtype := "mac".toList,
        Organization := [], Product := [], Serial := [], Component := some ["c".toList],
        Identifier := some [], Eui64Identifier := "0024beffff804ff1".toList,
        OwIdentifier := [] } (by decide)).1 rfl⟩

/-- C10: an input with exactly 5 sections whose subtype is "mac" or "ow" is rejected by `Parse`;
when the urn and dev literals, the component tokens and the identifiers are valid, the error
is "invalid input (mac)" for mac and "invalid input (ow)" for ow. -/
theorem C10_address_five_sections_rejected (uni : Char → Char) (name s0 s1 st s3 s4 : Str)
    (hS : Split ':' name = [s0, s1, st, s3, s4])
    (hst : st = "mac".toList ∨ st = "ow".toList) :
    (∃ e, Parse uni name = some (UrnDev.zero, some e)) ∧
    (ToLower uni s0 = "urn".toList → ToLower uni s1 = "dev".toList →
      (stripLast [s3, s4]).2.all isValidIdentifier = true →
      (stripLast [s3, s4]).1.all isValidIdentifier = true →
      Parse uni name =
        some (UrnDev.zero, some ("invalid input (".toList ++ st ++ ")".toList))) := by
  have hd : dispatch name st (stripLast [s3, s4]).2 (stripLast [s3, s4]).1 =
      some (UrnDev.zero, some ("invalid input (".toList ++ st ++ ")".toList)) := by
    rcases hst with rfl | rfl <;> simp [stripLast, dispatch, failWith, errorsNew]
  rw [Parse_sections uni name s0 s1 st s3 [s4] hS (by simp)]
  constructor
  · unfold parseSections
    simp only [failWith, errorsNew]
    split_ifs <;> first | exact ⟨_, rfl⟩ | exact ⟨_, hd⟩
  · intro h0 h1 hc hi
    unfold parseSections
    simp only [h0, h1, hc, hi, ne_eq, not_true_eq_false, if_false]
    exact hd

theorem C10_address_five_sections_rejected_witness :
    (Split ':' "urn:dev:mac:0024beffff804ff1:invalid".toList =
        ["urn".toList, "dev".toList, "mac".toList, "0024beffff804ff1".toList,
          "invalid".toList] ∧
      Parse id "urn:dev:mac:0024beffff804ff1:invalid".toList =
        some (UrnDev.zero, some "invalid input (mac)".toList)) ∧
    (Split ':' "urn:dev:ow:10e2073a01080063:invalid_c".toList =
        ["urn".toList, "dev".toList, "ow".toList, "10e2073a01080063".toList,
          "invalid_c".toList] ∧
      Parse id "urn:dev:ow:10e2073a01080063:invalid_c".toList =
        some (UrnDev.zero, some "invalid input (ow)".toList)) :=
  ⟨⟨by decide,
      (C10_address_five_sections_rejected id "urn:dev:mac:0024beffff804ff1:invalid".toList
        "urn".toList "dev".toList "mac".toList "0024beffff804ff1".toList "invalid".toList
        (by decide) (by decide)).2 (by decide) (by decide) (by decide) (by decide)⟩,
    ⟨by decide,
      (C10_address_five_sections_rejected id "urn:dev:ow:10e2073a01080063:invalid_c".toList
        "urn".toList "dev".toList "ow".toList "10e2073a01080063".toList "invalid_c".toList
        (by decide) (by decide)).2 (by decide) (by decide) (by decide) (by decide)⟩⟩

/-! ## Successful returns, branch by branch -/

theorem dispatch_success (name st : Str) (comps ids : List Str) (r : UrnDev)
    (h : dispatch name st comps ids = some (r, none)) :
    ∃ s3 more, ids = s3 :: more ∧
      ((st = "mac".toList ∧ more.length ≠ 1 ∧ isValidEui64 s3 = true ∧
          r = { FullName := name, Subtype := st, Organization := [], Product := [], Serial := [],
                Component := some comps, Identifier := some more, Eui64Identifier := s3,
                OwIdentifier := [] }) ∨
        (st = "ow".toList ∧ more.length ≠ 1 ∧ isValidOwAddress s3 = true ∧
          r = { FullName := name, Subtype := st, Organization := [], Product := [], Serial := [],
                Component := some comps, Identifier := some more, Eui64Identifier := [],
                OwIdentifier := s3 }) ∨
        (st = "org".toList ∧ ∃ o i, SplitN '-' s3 2 = [o, i] ∧ isValidPosNumber o = true ∧
          isValidIdentifier i = true ∧
          r = { FullName := name, Subtype := st, Organization := o, Product := [], Serial := [],
                Component := some comps, Identifier := some (i :: more), Eui64Identifier := [],
                OwIdentifier := [] }) ∨
        (st = "os".toList ∧ ∃ o s, SplitN '-' s3 2 = [o, s] ∧ isValidPosNumber o = true ∧
          isValidIdentifier s = true ∧
          r = { FullName := name, Subtype := st, Organization := o, Product := [], Serial := s,
                Component := some comps, Identifier := some more, Eui64Identifier := [],
                OwIdentifier := [] }) ∨
        (st = "ops".toList ∧ ∃ o p s, Split '-' s3 = [o, p, s] ∧ isValidPosNumber o = true ∧
          isValidIdentifierNoDash p = true ∧ isValidIdentifier s = true ∧
          r = { FullName := name, Subtype := st, Organization := o, Product := p, Serial := s,
                Component := some comps, Identifier := some more, Eui64Identifier := [],
                OwIdentifier := [] }) ∨
        ((st ≠ "mac".toList ∧ st ≠ "ow".toList ∧ st ≠ "org".toList ∧ st ≠ "os".toList ∧
            st ≠ "ops".toList) ∧ isValidSubType st = true ∧
          r = { FullName := name, Subtype := st, Organization := [], Product := [], Serial := [],
                Component := some comps, Identifier := some (s3 :: more), Eui64Identifier := [],
                OwIdentifier := [] })) := by
  unfold dispatch at h
  split at h
  · exact absurd h (by simp)
  · rename_i s3 more
    refine ⟨s3, more, rfl, ?_⟩
    simp only [failWith, errorsNew] at h
    by_cases hmac : st = "mac".toList
    · simp only [if_pos hmac] at h
      split_ifs at h with h1 h2 <;> cases h
      exact Or.inl ⟨hmac, h1, by simpa using h2, rfl⟩
    simp only [if_neg hmac] at h
    by_cases how : st = "ow".toList
    · simp only [if_pos how] at h
      split_ifs at h with h1 h2 <;> cases h
      exact Or.inr (Or.inl ⟨how, h1, by simpa using h2, rfl⟩)
    simp only [if_neg how] at h
    by_cases horg : st = "org".toList
    · simp only [if_pos horg] at h
      split at h
      · rename_i o i hN
        split_ifs at h with h1 h2 <;> cases h
        exact Or.inr (Or.inr (Or.inl ⟨horg, o, i, hN, by simpa using h1, by simpa using h2, rfl⟩))
      · cases h
    simp only [if_neg horg] at h
    by_cases hos : st = "os".toList
    · simp only [if_pos hos] at h
      split at h
      · rename_i o s hN
        split_ifs at h with h1 h2 <;> cases h
        exact Or.inr (Or.inr (Or.inr (Or.inl
          ⟨hos, o, s, hN, by simpa using h1, by simpa using h2, rfl⟩)))
      · cases h
    simp only [if_neg hos] at h
    by_cases hops : st = "ops".toList
    · simp only [if_pos hops] at h
      split at h
      · rename_i o p s hN
        split_ifs at h with h1 h2 h3 <;> cases h
        exact Or.inr (Or.inr (Or.inr (Or.inr (Or.inl
          ⟨hops, o, p, s, hN, by simpa using h1, by simpa using h2, by simpa using h3, rfl⟩))))
      · cases h
    simp only [if_neg hops] at h
    split_ifs at h with h1 <;> cases h
    exact Or.inr (Or.inr (Or.inr (Or.inr (Or.inr
      ⟨⟨hmac, how, horg, hos, hops⟩, by simpa using h1, rfl⟩))))

/-- C11, at the input "urn:dev:mac:0024beffff804ff1:a:b" (6 sections, two sections after the
address): `Parse` succeeds and returns `Subtype` "mac" with `Identifier = ["a", "b"]`; the same
holds for ow at "urn:dev:ow:10e2073a01080063:a:b". -/
theorem C11_address_with_trailing_sections_accepted (uni : Char → Char) :
    (Split ':' "urn:dev:mac:0024beffff804ff1:a:b".toList).length = 6 ∧
    Parse uni "urn:dev:mac:0024beffff804ff1:a:b".toList =
      some ({ FullName := "urn:dev:mac:0024beffff804ff1:a:b".toList, Subtype := "mac".toList,
              Organization := [], Product := [], Serial := [], Component := some [],
              Identifier := some ["a".toList, "b".toList],
              Eui64Identifier := "0024beffff804ff1".toList, OwIdentifier := [] }, none) ∧
    Parse uni "urn:dev:ow:10e2073a01080063:a:b".toList =
      some ({ FullName := "urn:dev:ow:10e2073a01080063:a:b".toList, Subtype := "ow".toList,
              Organization := [], Product := [], Serial := [], Component := some [],
              Identifier := some ["a".toList, "b".toList],
              Eui64Identifier := [], OwIdentifier := "10e2073a01080063".toList }, none) :=
  ⟨by decide, rfl, rfl⟩

/-- C12: for a string `h` of lowercase hex digits of length 15 or 17, `Parse("urn:dev:mac:" + h)`
fails with the error "invalid input (EUI-64)". -/
theorem C12_mac_wrong_length_rejected (uni : Char → Char) (h : Str)
    (hlen : h.length = 15 ∨ h.length = 17) (hhex : ∀ c ∈ h, isHexDigit c = true) :
    Parse uni ("urn:dev:mac:".toList ++ h) =
      some (UrnDev.zero, some "invalid input (EUI-64)".toList) := by
  have hname : "urn:dev:mac:".toList ++ h =
      build "urn".toList "dev".toList "mac".toList h [] [] := by
    simp [build, withSep]
  have hvh : isValidIdentifier h = true :=
    (isValidIdentifier_iff h).2 ⟨by rintro rfl; simp at hlen,
      fun c hc => isReserved_of_isHexDigit c (hhex c hc)⟩
  obtain ⟨L, hP, hL⟩ := Parse_build uni "urn".toList "dev".toList "mac".toList h [] []
    (by decide) (by decide) (by decide) (by simpa using not_mem_of_isValidIdentifier h hvh)
    (by simp) (by simp)
  have haddr : isValidEui64 h = false := by
    cases hv : isValidEui64 h with
    | false => rfl
    | true =>
      have := ((isValidEui64_iff h).1 hv).1
      omega
  rw [hname, hP]
  unfold parseSections
  rw [hL]
  simp only [ToLower_urn, ToLower_dev, ne_eq, not_true_eq_false, if_false, List.all_nil,
    List.all_cons, hvh, Bool.and_true]
  simp [dispatch, haddr, failWith, errorsNew]

theorem C12_mac_wrong_length_rejected_witness :
    ("acde48234567019".toList.length = 15 ∨ "acde48234567019".toList.length = 17) ∧
    Parse id "urn:dev:mac:acde48234567019".toList =
      some (UrnDev.zero, some "invalid input (EUI-64)".toList) :=
  ⟨by decide,
    C12_mac_wrong_length_rejected id "acde48234567019".toList (by decide) (by decide)⟩

theorem Parse_success (uni : Char → Char) (name : Str) (r : UrnDev)
    (h : Parse uni name = some (r, none)) :
    ∃ s0 s1 st s3 rest, Split ':' name = s0 :: s1 :: st :: s3 :: rest ∧ rest.length < 12 ∧
      ToLower uni s0 = "urn".toList ∧ ToLower uni s1 = "dev".toList ∧
      (stripLast (s3 :: rest)).2.all isValidIdentifier = true ∧
      (stripLast (s3 :: rest)).1.all isValidIdentifier = true ∧
      dispatch name st (stripLast (s3 :: rest)).2 (stripLast (s3 :: rest)).1 = some (r, none) ∧
      r.FullName = name ∧ r.Subtype = st ∧ r.Component = some (stripLast (s3 :: rest)).2 := by
  obtain ⟨s0, s1, st, s3, rest, hS, hl, h0, h1, hc, hi, hd⟩ := Parse_success_dispatch uni name r h
  refine ⟨s0, s1, st, s3, rest, hS, hl, h0, h1, hc, hi, hd, ?_⟩
  rcases dispatch_shape _ _ _ _ _ _ hd with h2 | h2
  · obtain ⟨_, m, hm, _⟩ := h2
    cases hm
  · exact h2.2

theorem Split_cons_inv (sep : Char) (x a b : Str) (tl : List Str)
    (h : Split sep x = a :: b :: tl) : ∃ y, x = a ++ sep :: y ∧ Split sep y = b :: tl := by
  induction x generalizing a with
  | nil => simp [Split] at h
  | cons c cs ih =>
    unfold Split at h
    split at h
    · rename_i hc
      simp only [List.cons.injEq] at h
      obtain ⟨ha, hs⟩ := h
      subst ha hc
      exact ⟨cs, rfl, hs⟩
    · split at h
      · simp at h
      · rename_i piece more hS
        simp only [List.cons.injEq] at h
        obtain ⟨ha, hm⟩ := h
        subst ha hm
        obtain ⟨y, hy, hy2⟩ := ih piece hS
        exact ⟨y, by rw [hy]; rfl, hy2⟩

theorem Split_singleton_inv (sep : Char) (x a : Str) (h : Split sep x = [a]) : x = a := by
  have := Split_tail_nil sep x (by rw [h]; rfl)
  rw [h] at this
  simpa using this.symm

theorem Split_three_inv (sep : Char) (x o p s : Str) (h : Split sep x = [o, p, s]) :
    x = o ++ sep :: (p ++ sep :: s) := by
  obtain ⟨y, hy, h1⟩ := Split_cons_inv sep x o p [s] h
  obtain ⟨z, hz, h2⟩ := Split_cons_inv sep y p s [] h1
  have := Split_singleton_inv sep z s h2
  subst this hz hy
  rfl

theorem isValidPosNumber_iff (s : Str) :
    isValidPosNumber s = true ↔
      ∃ d ds, s = d :: ds ∧ isNzDigit d = true ∧ ∀ c ∈ ds, isDigit c = true := by
  cases s with
  | nil => simp [isValidPosNumber, PosNumberRegEx]
  | cons c cs =>
    simp only [isValidPosNumber, PosNumberRegEx, Bool.and_eq_true, List.all_eq_true]
    constructor
    · rintro ⟨h1, h2⟩
      exact ⟨c, cs, rfl, h1, h2⟩
    · rintro ⟨d, ds, he, h1, h2⟩
      cases he
      exact ⟨h1, h2⟩

theorem isValidIdentifierNoDash_iff (s : Str) :
    isValidIdentifierNoDash s = true ↔ s ≠ [] ∧ ∀ c ∈ s, isReservedNoDash c = true :=
  DevUrnReservedNoDashRegEx_iff s

/-- C13: when `Parse` succeeds with `Subtype` "ops", `Organization` is a digit 1-9 followed by
digits 0-9, `Product` is non-empty and holds no dash, and `Serial` is a valid identifier
(non-empty, characters in `[A-Za-z0-9.-]` only). -/
theorem C13_ops_fields_valid (uni : Char → Char) (name : Str) (r : UrnDev)
    (h : Parse uni name = some (r, none)) (hst : r.Subtype = "ops".toList) :
    (∃ d ds, r.Organization = d :: ds ∧ isNzDigit d = true ∧ ∀ c ∈ ds, isDigit c = true) ∧
    (r.Product ≠ [] ∧ '-' ∉ r.Product) ∧
    (r.Serial ≠ [] ∧ ∀ c ∈ r.Serial, isReserved c = true) := by
  obtain ⟨s0, s1, st, s3, rest, _, _, _, _, _, _, hd, _, hsub, _⟩ := Parse_success uni name r h
  rw [hst] at hsub
  subst hsub
  obtain ⟨s3', more, _, hcase⟩ := dispatch_success _ _ _ _ _ hd
  rcases hcase with ⟨e, _⟩ | ⟨e, _⟩ | ⟨e, _⟩ | ⟨e, _⟩ | ⟨_, o, p, s, _, ho, hp, hs, hr⟩ |
    ⟨⟨_, _, _, _, e⟩, _⟩
  · exact absurd e (by decide)
  · exact absurd e (by decide)
  · exact absurd e (by decide)
  · exact absurd e (by decide)
  · subst hr
    have hp2 := (isValidIdentifierNoDash_iff p).1 hp
    exact ⟨(isValidPosNumber_iff o).1 ho,
      ⟨hp2.1, fun hm => isReservedNoDash_ne_dash _ (hp2.2 _ hm) rfl⟩,
      (isValidIdentifier_iff s).1 hs⟩
  · exact absurd rfl e

theorem C13_ops_fields_valid_witness :
    Parse id "urn:dev:ops:32473-Refrigerator-5002:x_c".toList =
      some ({ FullName := "urn:dev:ops:32473-Refrigerator-5002:x_c".toList,
              Subtype := "ops".toList, Organization := "32473".toList,
              Product := "Refrigerator".toList, Serial := "5002".toList,
              Component := some ["c".toList], Identifier := some ["x".toList],
              Eui64Identifier := [], OwIdentifier := [] }, none) ∧
    ((∃ d ds, "32473".toList = d :: ds ∧ isNzDigit d = true ∧ ∀ c ∈ ds, isDigit c = true) ∧
      ("Refrigerator".toList ≠ [] ∧ '-' ∉ "Refrigerator".toList) ∧
      ("5002".toList ≠ [] ∧ ∀ c ∈ "5002".toList, isReserved c = true)) :=
  ⟨by decide,
    C13_ops_fields_valid id "urn:dev:ops:32473-Refrigerator-5002:x_c".toList
      { FullName := "urn:dev:ops:32473-Refrigerator-5002:x_c".toList,
        Subtype := "ops".toList, Organization := "32473".toList,
        Product := "Refrigerator".toList, Serial := "5002".toList,
        Component := some ["c".toList], Identifier := some ["x".toList],
        Eui64Identifier := [], OwIdentifier := [] } (by decide) rfl⟩

/-- C14 fails as stated: "urn:dev:ops:32473-Refrigerator-5002_component" is accepted with
`Subtype` "ops", its fourth piece between colons is "32473-Refrigerator-5002_component", and
`Organization + "-" + Product + "-" + Serial` is "32473-Refrigerator-5002". -/
theorem C14_rejoin_differs_from_section :
    Parse id "urn:dev:ops:32473-Refrigerator-5002_component".toList =
      some ({ FullName := "urn:dev:ops:32473-Refrigerator-5002_component".toList,
              Subtype := "ops".toList, Organization := "32473".toList,
              Product := "Refrigerator".toList, Serial := "5002".toList,
              Component := some ["component".toList], Identifier := some [],
              Eui64Identifier := [], OwIdentifier := [] }, none) ∧
    (Split ':' "urn:dev:ops:32473-Refrigerator-5002_component".toList)[3]? =
      some "32473-Refrigerator-5002_component".toList ∧
    "32473".toList ++ "-".toList ++ "Refrigerator".toList ++ "-".toList ++ "5002".toList ≠
      "32473-Refrigerator-5002_component".toList := by
  decide

/-- C14, amended: when `Parse` succeeds with `Subtype` "ops", `Organization + "-" + Product +
"-" + Serial` equals section 3 of the input with its component part removed: the fourth piece
between colons, cut at its first underscore (the whole piece when it holds none). -/
theorem C14_ops_rejoin_is_stripped_section (uni : Char → Char) (name : Str) (r : UrnDev)
    (h : Parse uni name = some (r, none)) (hst : r.Subtype = "ops".toList) :
    ∃ s3, (Split ':' name)[3]? = some s3 ∧
      r.Organization ++ "-".toList ++ r.Product ++ "-".toList ++ r.Serial =
        (Split '_' s3).headD [] := by
  obtain ⟨s0, s1, st, s3, rest, hS, _, _, _, _, hi, hd, _, hsub, _⟩ := Parse_success uni name r h
  rw [hst] at hsub
  subst hsub
  refine ⟨s3, by rw [hS]; simp, ?_⟩
  obtain ⟨s3', more, hids, hcase⟩ := dispatch_success _ _ _ _ _ hd
  have hhead : s3' = (Split '_' s3).headD [] := by
    rcases rest with _ | ⟨x, rest⟩
    · simp only [stripLast, List.getLastD_cons, List.getLastD_nil, List.dropLast_single,
        List.nil_append, List.cons.injEq] at hids
      exact hids.1.symm
    · rw [hids] at hi
      have h3 : s3' = s3 := by
        simp [stripLast] at hids
        exact hids.1.symm
      subst h3
      have hv : isValidIdentifier s3' = true := by
        simp only [List.all_cons, Bool.and_eq_true] at hi
        exact hi.1
      rw [Split_no_sep '_' s3' (not_mem_of_isValidIdentifier s3' hv).2]
      rfl
  rcases hcase with ⟨e, _⟩ | ⟨e, _⟩ | ⟨e, _⟩ | ⟨e, _⟩ | ⟨_, o, p, s, hP, _, _, _, hr⟩ |
    ⟨⟨_, _, _, _, e⟩, _⟩
  · exact absurd e (by decide)
  · exact absurd e (by decide)
  · exact absurd e (by decide)
  · exact absurd e (by decide)
  · subst hr
    rw [← hhead, Split_three_inv '-' s3' o p s hP]
    simp
  · exact absurd rfl e

theorem C14_ops_rejoin_is_stripped_section_witness :
    Parse id "urn:dev:ops:32473-Refrigerator-5002_component".toList =
      some ({ FullName := "urn:dev:ops:32473-Refrigerator-5002_component".toList,
              Subtype := "ops".toList, Organization := "32473".toList,
              Product := "Refrigerator".toList, Serial := "5002".toList,
              Component := some ["component".toList], Identifier := some [],
              Eui64Identifier := [], OwIdentifier := [] }, none) ∧
    (∃ s3, (Split ':' "urn:dev:ops:32473-Refrigerator-5002_component".toList)[3]? = some s3 ∧
      "32473".toList ++ "-".toList ++ "Refrigerator".toList ++ "-".toList ++ "5002".toList =
        (Split '_' s3).headD []) :=
  ⟨by decide,
    C14_ops_rejoin_is_stripped_section id
      "urn:dev:ops:32473-Refrigerator-5002_component".toList
      { FullName := "urn:dev:ops:32473-Refrigerator-5002_component".toList,
        Subtype := "ops".toList, Organization := "32473".toList,
        Product := "Refrigerator".toList, Serial := "5002".toList,
        Component := some ["component".toList], Identifier := some [],
        Eui64Identifier := [], OwIdentifier := [] } (by decide) rfl⟩

theorem ne_nil_of_isValidPosNumber (s : Str) (h : isValidPosNumber s = true) : s ≠ [] := by
  obtain ⟨d, ds, hs, _⟩ := (isValidPosNumber_iff s).1 h
  rw [hs]
  simp

theorem ne_nil_of_isValidEui64 (s : Str) (h : isValidEui64 s = true) : s ≠ [] := by
  have := ((isValidEui64_iff s).1 h).1
  rintro rfl
  simp at this

/-- C15: when `Parse` succeeds, `Organization` is non-empty iff `Subtype` is org, os or ops,
`Product` is non-empty iff `Subtype` is ops, `Serial` is non-empty iff `Subtype` is os or ops,
`Eui64Identifier` is non-empty iff `Subtype` is mac and `OwIdentifier` is non-empty iff
`Subtype` is ow. -/
theorem C15_fields_of_owning_subtype (uni : Char → Char) (name : Str) (r : UrnDev)
    (h : Parse uni name = some (r, none)) :
    (r.Organization ≠ [] ↔
      (r.Subtype = "org".toList ∨ r.Subtype = "os".toList ∨ r.Subtype = "ops".toList)) ∧
    (r.Product ≠ [] ↔ r.Subtype = "ops".toList) ∧
    (r.Serial ≠ [] ↔ (r.Subtype = "os".toList ∨ r.Subtype = "ops".toList)) ∧
    (r.Eui64Identifier ≠ [] ↔ r.Subtype = "mac".toList) ∧
    (r.OwIdentifier ≠ [] ↔ r.Subtype = "ow".toList) := by
  obtain ⟨s0, s1, st, s3, rest, _, _, _, _, _, _, hd, _, _, _⟩ := Parse_success uni name r h
  obtain ⟨s3', more, _, hcase⟩ := dispatch_success _ _ _ _ _ hd
  rcases hcase with ⟨e, _, ha, hr⟩ | ⟨e, _, ha, hr⟩ | ⟨e, o, i, _, ho, _, hr⟩ |
    ⟨e, o, s, _, ho, hs, hr⟩ | ⟨e, o, p, s, _, ho, hp, hs, hr⟩ | ⟨⟨e1, e2, e3, e4, e5⟩, _, hr⟩
  · subst hr e
    have := ne_nil_of_isValidEui64 _ ha
    simp [this]
  · subst hr e
    have := ne_nil_of_isValidEui64 _ ha
    simp [this]
  · subst hr e
    have := ne_nil_of_isValidPosNumber _ ho
    simp [this]
  · subst hr e
    have h1 := ne_nil_of_isValidPosNumber _ ho
    have h2 := ((isValidIdentifier_iff _).1 hs).1
    simp [h1, h2]
  · subst hr e
    have h1 := ne_nil_of_isValidPosNumber _ ho
    have h2 := ((isValidIdentifier_iff _).1 hs).1
    have h3 := ((isValidIdentifierNoDash_iff _).1 hp).1
    simp [h1, h2, h3]
  · subst hr
    simp only [ne_eq, not_true_eq_false, false_iff, not_or]
    exact ⟨⟨e3, e4, e5⟩, e5, ⟨e4, e5⟩, e1, e2⟩

theorem C15_fields_of_owning_subtype_witness :
    Parse id "urn:dev:os:32473-12-34-56".toList =
      some ({ FullName := "urn:dev:os:32473-12-34-56".toList, Subtype := "os".toList,
              Organization := "32473".toList, Product := [], Serial := "12-34-56".toList,
              Component := some [], Identifier := some [], Eui64Identifier := [],
              OwIdentifier := [] }, none) ∧
    (("32473".toList ≠ [] ↔
        ("os".toList = "org".toList ∨ "os".toList = "os".toList ∨ "os".toList = "ops".toList)) ∧
      (([] : Str) ≠ [] ↔ "os".toList = "ops".toList) ∧
      ("12-34-56".toList ≠ [] ↔ ("os".toList = "os".toList ∨ "os".toList = "ops".toList)) ∧
      (([] : Str) ≠ [] ↔ "os".toList = "mac".toList) ∧
      (([] : Str) ≠ [] ↔ "os".toList = "ow".toList)) :=
  ⟨by decide,
    C15_fields_of_owning_subtype id "urn:dev:os:32473-12-34-56".toList
      { FullName := "urn:dev:os:32473-12-34-56".toList, Subtype := "os".toList,
        Organization := "32473".toList, Product := [], Serial := "12-34-56".toList,
        Component := some [], Identifier := some [], Eui64Identifier := [],
        OwIdentifier := [] } (by decide)⟩

/-- C17: when `Parse` succeeds, the `FullName` of the returned record is the input string
itself. -/
theorem C17_fullname_is_input (uni : Char → Char) (name : Str) (r : UrnDev)
    (h : Parse uni name = some (r, none)) : r.FullName = name := by
  obtain ⟨_, _, _, _, _, _, _, _, _, _, _, _, hf, _, _⟩ := Parse_success uni name r h
  exact hf

theorem C17_fullname_is_input_witness :
    Parse id "URN:Dev:ops:32473-Refrigerator-5002:identifier_component".toList =
      some ({ FullName := "URN:Dev:ops:32473-Refrigerator-5002:identifier_component".toList,
              Subtype := "ops".toList, Organization := "32473".toList,
              Product := "Refrigerator".toList, Serial := "5002".toList,
              Component := some ["component".toList], Identifier := some ["identifier".toList],
              Eui64Identifier := [], OwIdentifier := [] }, none) ∧
    "URN:Dev:ops:32473-Refrigerator-5002:identifier_component".toList =
      "URN:Dev:ops:32473-Refrigerator-5002:identifier_component".toList :=
  ⟨by decide,
    C17_fullname_is_input id "URN:Dev:ops:32473-Refrigerator-5002:identifier_component".toList
      { FullName := "URN:Dev:ops:32473-Refrigerator-5002:identifier_component".toList,
        Subtype := "ops".toList, Organization := "32473".toList,
        Product := "Refrigerator".toList, Serial := "5002".toList,
        Component := some ["component".toList], Identifier := some ["identifier".toList],
        Eui64Identifier := [], OwIdentifier := [] } (by decide)⟩

/-! ## The prefix test -/

theorem ToLower_append (uni : Char → Char) (a b : Str) :
    ToLower uni (a ++ b) = ToLower uni a ++ ToLower uni b := by
  simp [ToLower]

theorem ToLower_cons (uni : Char → Char) (c : Char) (b : Str) :
    ToLower uni (c :: b) = toLowerRune uni c :: ToLower uni b := by
  simp [ToLower]

theorem toLowerRune_colon (uni : Char → Char) : toLowerRune uni ':' = ':' := by
  rfl

/-- C19: when `Parse` succeeds on a string, `HasUrnDevPrefix` is true of it; the converse fails:
"urn:dev:" passes `HasUrnDevPrefix` and is rejected by `Parse`. -/
theorem C19_prefix_check_is_sound (uni : Char → Char) (name : Str) (r : UrnDev)
    (h : Parse uni name = some (r, none)) :
    HasUrnDevPrefix uni name = true ∧
    (HasUrnDevPrefix uni "urn:dev:".toList = true ∧
      Parse uni "urn:dev:".toList = some (UrnDev.zero, some "invalid input".toList)) := by
  refine ⟨?_, rfl, Parse_malformed uni _ (Or.inl (by decide))⟩
  obtain ⟨s0, s1, st, s3, rest, hS, _, h0, h1, _⟩ := Parse_success uni name r h
  obtain ⟨y, hy, hS1⟩ := Split_cons_inv ':' name s0 s1 _ hS
  obtain ⟨z, hz, _⟩ := Split_cons_inv ':' y s1 st _ hS1
  subst hz hy
  unfold HasUrnDevPrefix
  rw [ToLower_append, ToLower_cons, ToLower_append, ToLower_cons, h0, h1, toLowerRune_colon]
  simp [HasPrefix, UrnDevPrefix]

theorem C19_prefix_check_is_sound_witness :
    Parse id "urn:dev:mac:0024beffff804ff1".toList =
      some ({ FullName := "urn:dev:mac:0024beffff804ff1".toList, Subtype := "mac".toList,
              Organization := [], Product := [], Serial := [], Component := some [],
              Identifier := some [], Eui64Identifier := "0024beffff804ff1".toList,
              OwIdentifier := [] }, none) ∧
    HasUrnDevPrefix id "urn:dev:mac:0024beffff804ff1".toList = true :=
  ⟨by decide,
    (C19_prefix_check_is_sound id "urn:dev:mac:0024beffff804ff1".toList
      { FullName := "urn:dev:mac:0024beffff804ff1".toList, Subtype := "mac".toList,
        Organization := [], Product := [], Serial := [], Component := some [],
        Identifier := some [], Eui64Identifier := "0024beffff804ff1".toList,
        OwIdentifier := [] } (by decide)).1⟩

/-! ## Letter case -/

theorem toLowerRune_of_ascii (uni : Char → Char) (c : Char) (h : c.toNat ≤ 127) :
    toLowerRune uni c = asciiLower c := by
  simp only [toLowerRune, asciiLower, if_pos h]

theorem asciiLower_of_not_ascii (c : Char) (h : ¬ c.toNat ≤ 127) : asciiLower c = c := by
  have : ¬ (65 ≤ c.toNat ∧ c.toNat ≤ 90) := fun hh => h (by omega)
  simp only [asciiLower, if_neg this]

theorem asciiLower_upper_ascii (c : Char) (h : 65 ≤ c.toNat ∧ c.toNat ≤ 90) :
    (Char.ofNat (c.toNat + 32)).toNat ≤ 127 := by
  obtain ⟨h1, h2⟩ := h
  generalize c.toNat = n at h1 h2
  interval_cases n <;> decide

theorem asciiLower_ascii_iff (c : Char) : (asciiLower c).toNat ≤ 127 ↔ c.toNat ≤ 127 := by
  by_cases h : 65 ≤ c.toNat ∧ c.toNat ≤ 90
  · simp only [asciiLower, if_pos h]
    exact ⟨fun _ => by omega, fun _ => asciiLower_upper_ascii c h⟩
  · simp only [asciiLower, if_neg h]

theorem toLowerRune_congr (uni : Char → Char) (c d : Char) (h : asciiLower c = asciiLower d) :
    toLowerRune uni c = toLowerRune uni d := by
  by_cases hc : c.toNat ≤ 127
  · have hd : d.toNat ≤ 127 := (asciiLower_ascii_iff d).1 (h ▸ (asciiLower_ascii_iff c).2 hc)
    rw [toLowerRune_of_ascii uni c hc, toLowerRune_of_ascii uni d hd, h]
  · have hd : ¬ d.toNat ≤ 127 := fun hd =>
      hc ((asciiLower_ascii_iff c).1 (h ▸ (asciiLower_ascii_iff d).2 hd))
    rw [asciiLower_of_not_ascii c hc, asciiLower_of_not_ascii d hd] at h
    rw [h]

theorem ToLower_congr (uni : Char → Char) (a b : Str)
    (h : a.map asciiLower = b.map asciiLower) : ToLower uni a = ToLower uni b := by
  induction a generalizing b with
  | nil =>
    cases b with
    | nil => rfl
    | cons d b => simp at h
  | cons c a ih =>
    cases b with
    | nil => simp at h
    | cons d b =>
      simp only [List.map_cons, List.cons.injEq] at h
      rw [ToLower_cons, ToLower_cons, toLowerRune_congr uni c d h.1, ih b h.2]

theorem toLowerRune_eq_iff (uni : Char → Char)
    (huni : ∀ c : Char, 127 < c.toNat → uni c ∉ "urn:dev:".toList) (c p : Char)
    (hp : p ∈ "urn:dev:".toList) : toLowerRune uni c = p ↔ asciiLower c = p := by
  by_cases hc : c.toNat ≤ 127
  · rw [toLowerRune_of_ascii uni c hc]
  · have hpa : p.toNat ≤ 127 := by
      simp only [String.toList, List.mem_cons, List.mem_singleton] at hp
      rcases hp with rfl | rfl | rfl | rfl | rfl | rfl | rfl | rfl | hp <;>
        first | decide | simp at hp
    rw [asciiLower_of_not_ascii c hc]
    simp only [toLowerRune, if_neg hc]
    constructor
    · intro e
      exact absurd (e ▸ hp) (huni c (by omega))
    · intro e
      exact absurd (e ▸ hpa) hc

theorem map_eq_iff_of_pointwise (f g : Char → Char) :
    ∀ (P l : Str), (∀ c p, p ∈ P → (f c = p ↔ g c = p)) → (l.map f = P ↔ l.map g = P) := by
  intro P
  induction P with
  | nil =>
    intro l _
    cases l <;> simp
  | cons p P ih =>
    intro l h
    cases l with
    | nil => simp
    | cons c l =>
      simp only [List.map_cons, List.cons.injEq]
      rw [h c p (by simp), ih l (fun c q hq => h c q (by simp [hq]))]

/-- C18: `HasUrnDevPrefix` is a total boolean function, and it is true of a string exactly when
the string has at least 8 characters and its first 8 characters are "urn:dev:" once ASCII
letter case is ignored. The case table `uni` of `unicode.ToLower` sends no character above
U+007F to a character of "urn:dev:". -/
theorem C18_prefix_check_iff (uni : Char → Char)
    (huni : ∀ c : Char, 127 < c.toNat → uni c ∉ "urn:dev:".toList) (name : Str) :
    HasUrnDevPrefix uni name = true ↔
      (8 ≤ name.length ∧ (name.take 8).map asciiLower = "urn:dev:".toList) := by
  have hlen : UrnDevPrefix.length = 8 := rfl
  have hmap := map_eq_iff_of_pointwise (toLowerRune uni) asciiLower "urn:dev:".toList
    (name.take 8) (fun c p hp => toLowerRune_eq_iff uni huni c p hp)
  simp only [HasUrnDevPrefix, HasPrefix, ToLower, hlen, List.length_map, Bool.and_eq_true,
    decide_eq_true_eq, ← List.map_take]
  exact and_congr Iff.rfl hmap

theorem C18_prefix_check_iff_witness :
    (∀ c : Char, 127 < c.toNat → id c ∉ "urn:dev:".toList) ∧
    HasUrnDevPrefix id "URN:DEV:mac:0024beffff804ff1".toList = true ∧
    ¬ (8 ≤ "urn:uuid:f81d4fae-7dec-11d0-a765-00a0c91e6bf6".toList.length ∧
        ("urn:uuid:f81d4fae-7dec-11d0-a765-00a0c91e6bf6".toList.take 8).map asciiLower =
          "urn:dev:".toList) ∧
    HasUrnDevPrefix id "urn:not-dev:value".toList = false := by
  have hid : ∀ c : Char, 127 < c.toNat → id c ∉ "urn:dev:".toList := by
    intro c hc hm
    simp only [id, String.toList, List.mem_cons, List.mem_singleton] at hm
    rcases hm with rfl | rfl | rfl | rfl | rfl | rfl | rfl | rfl | hm <;>
      first | exact absurd hc (by decide) | simp at hm
  refine ⟨hid, ?_, ?_, by decide⟩
  · exact (C18_prefix_check_iff id hid "URN:DEV:mac:0024beffff804ff1".toList).2
      ⟨by decide, by decide⟩
  · intro h
    have := (C18_prefix_check_iff id hid
      "urn:uuid:f81d4fae-7dec-11d0-a765-00a0c91e6bf6".toList).2 h
    exact absurd this (by decide)

theorem dispatch_rename (name name2 st : Str) (comps ids : List Str) (r : UrnDev)
    (h : dispatch name st comps ids = some (r, none)) :
    dispatch name2 st comps ids = some ({ r with FullName := name2 }, none) := by
  obtain ⟨s3, more, hids, hcase⟩ := dispatch_success _ _ _ _ _ h
  subst hids
  rcases hcase with ⟨e, h1, ha, hr⟩ | ⟨e, h1, ha, hr⟩ | ⟨e, o, i, hN, ho, hi, hr⟩ |
    ⟨e, o, s, hN, ho, hs, hr⟩ | ⟨e, o, p, s, hN, ho, hp, hs, hr⟩ |
    ⟨⟨e1, e2, e3, e4, e5⟩, hv, hr⟩
  · subst hr e
    simp [dispatch, h1, ha]
  · subst hr e
    simp [dispatch, h1, ha]
  · subst hr e
    simp [dispatch, hN, ho, hi]
  · subst hr e
    simp [dispatch, hN, ho, hs]
  · subst hr e
    simp [dispatch, hN, ho, hp, hs]
  · subst hr
    unfold dispatch
    simp only [if_neg e1, if_neg e2, if_neg e3, if_neg e4, if_neg e5, hv, not_true_eq_false,
      if_false]

theorem foldSections_length (S : List Str) : (foldSections S).length = S.length := by
  simp only [foldSections, List.length_append, List.length_map, List.length_take,
    List.length_drop]
  omega

theorem foldSections_inv (S : List Str) (a b : Str) (tl : List Str)
    (h : foldSections S = a :: b :: tl) :
    ∃ t0 t1, S = t0 :: t1 :: tl ∧ t0.map asciiLower = a ∧ t1.map asciiLower = b := by
  rcases S with _ | ⟨t0, _ | ⟨t1, S⟩⟩
  · simp [foldSections] at h
  · simp [foldSections] at h
  · simp only [foldSections, List.take_succ_cons, List.take_zero, List.map_cons, List.map_nil,
      List.drop_succ_cons, List.drop_zero, List.cons_append, List.nil_append,
      List.cons.injEq] at h
    obtain ⟨h0, h1, h2⟩ := h
    subst h2
    exact ⟨t0, t1, rfl, h0, h1⟩

theorem Parse_case_change (uni : Char → Char) (s s2 : Str) (r : UrnDev)
    (hfold : foldSections (Split ':' s) = foldSections (Split ':' s2))
    (h : Parse uni s = some (r, none)) :
    Parse uni s2 = some ({ r with FullName := s2 }, none) := by
  obtain ⟨s0, s1, st, s3, rest, hS, hl, h0, h1, hc, hi, hd, _⟩ := Parse_success uni s r h
  have hf : foldSections (Split ':' s2) =
      s0.map asciiLower :: s1.map asciiLower :: st :: s3 :: rest := by
    rw [← hfold, hS]
    rfl
  obtain ⟨t0, t1, hS2, ht0, ht1⟩ := foldSections_inv _ _ _ _ hf
  rw [Parse_sections uni s2 t0 t1 st s3 rest hS2 hl]
  unfold parseSections
  rw [ToLower_congr uni t0 s0 ht0, ToLower_congr uni t1 s1 ht1]
  simp only [h0, h1, hc, hi, ne_eq, not_true_eq_false, if_false]
  exact dispatch_rename s s2 st _ _ r hd

/-- C16: when `s2` comes from `s` by changing only the ASCII letter case of characters of its
first two sections, `Parse(s2)` succeeds iff `Parse(s)` succeeds, and on success the two records
agree on `Subtype`, `Organization`, `Product`, `Serial`, `Component`, `Identifier`,
`Eui64Identifier` and `OwIdentifier`, while each `FullName` is its own input. Letter case
matters elsewhere: "urn:dev:mac:0024beffff804ff1" is accepted and
"urn:dev:MAC:0024beffff804ff1" is not. -/
theorem C16_literals_case_insensitive (uni : Char → Char) (s s2 : Str)
    (hfold : foldSections (Split ':' s) = foldSections (Split ':' s2)) :
    ((∃ r, Parse uni s = some (r, none)) ↔ (∃ r2, Parse uni s2 = some (r2, none))) ∧
    (∀ r r2, Parse uni s = some (r, none) → Parse uni s2 = some (r2, none) →
      r.Subtype = r2.Subtype ∧ r.Organization = r2.Organization ∧ r.Product = r2.Product ∧
      r.Serial = r2.Serial ∧ r.Component = r2.Component ∧ r.Identifier = r2.Identifier ∧
      r.Eui64Identifier = r2.Eui64Identifier ∧ r.OwIdentifier = r2.OwIdentifier ∧
      r.FullName = s ∧ r2.FullName = s2) ∧
    (Parse uni "urn:dev:mac:0024beffff804ff1".toList =
        some ({ FullName := "urn:dev:mac:0024beffff804ff1".toList, Subtype := "mac".toList,
                Organization := [], Product := [], Serial := [], Component := some [],
                Identifier := some [], Eui64Identifier := "0024beffff804ff1".toList,
                OwIdentifier := [] }, none) ∧
      Parse uni "urn:dev:MAC:0024beffff804ff1".toList =
        some (UrnDev.zero, some "invalid sub type (MAC)".toList)) := by
  refine ⟨?_, ?_, rfl, rfl⟩
  · constructor
    · rintro ⟨r, h⟩
      exact ⟨_, Parse_case_change uni s s2 r hfold h⟩
    · rintro ⟨r, h⟩
      exact ⟨_, Parse_case_change uni s2 s r hfold.symm h⟩
  · intro r r2 h h2
    have h3 := Parse_case_change uni s s2 r hfold h
    rw [h2] at h3
    simp only [Option.some.injEq, Prod.mk.injEq, and_true] at h3
    obtain ⟨_, _, _, _, _, _, _, _, _, _, _, _, hf, _, _⟩ := Parse_success uni s r h
    subst h3
    exact ⟨rfl, rfl, rfl, rfl, rfl, rfl, rfl, rfl, hf, rfl⟩

theorem C16_literals_case_insensitive_witness :
    foldSections (Split ':' "urn:dev:mac:0024beffff804ff1_c".toList) =
      foldSections (Split ':' "URN:DeV:mac:0024beffff804ff1_c".toList) ∧
    Parse id "urn:dev:mac:0024beffff804ff1_c".toList =
      some ({ FullName := "urn:dev:mac:0024beffff804ff1_c".toList, Subtype := "mac".toList,
              Organization := [], Product := [], Serial := [], Component := some ["c".toList],
              Identifier := some [], Eui64Identifier := "0024beffff804ff1".toList,
              OwIdentifier := [] }, none) ∧
    (∃ r2, Parse id "URN:DeV:mac:0024beffff804ff1_c".toList = some (r2, none)) :=
  ⟨by decide, by decide,
    (C16_literals_case_insensitive id "urn:dev:mac:0024beffff804ff1_c".toList
      "URN:DeV:mac:0024beffff804ff1_c".toList (by decide)).1.1
      ⟨{ FullName := "urn:dev:mac:0024beffff804ff1_c".toList, Subtype := "mac".toList,
         Organization := [], Product := [], Serial := [], Component := some ["c".toList],
         Identifier := some [], Eui64Identifier := "0024beffff804ff1".toList,
         OwIdentifier := [] }, by decide⟩⟩

/-! ## The two rejections of an address subtype -/

theorem parseSections_valid (uni : Char → Char) (name s0 s1 st : Str) (ids : List Str)
    (h0 : ToLower uni s0 = "urn".toList) (h1 : ToLower uni s1 = "dev".toList)
    (hc : (stripLast ids).2.all isValidIdentifier = true)
    (hi : (stripLast ids).1.all isValidIdentifier = true) :
    parseSections uni name s0 s1 st ids =
      dispatch name st (stripLast ids).2 (stripLast ids).1 := by
  unfold parseSections
  simp only [h0, h1, hc, hi, ne_eq, not_true_eq_false, if_false]

/-- C20 fails as stated for ow: "urn:dev:ow:10e2073a01080063:invalid" (5 sections) and
"urn:dev:ow:10e2073a0108006" (an address of 15 digits) are rejected with the same error,
"invalid input (ow)". -/
theorem C20_ow_rejections_coincide :
    Parse id "urn:dev:ow:10e2073a01080063:invalid".toList =
      some (UrnDev.zero, some "invalid input (ow)".toList) ∧
    Parse id "urn:dev:ow:10e2073a0108006".toList =
      some (UrnDev.zero, some "invalid input (ow)".toList) := by
  decide

/-- C20, amended: take an input `a` with exactly 5 sections and an input `b` whose section
count is not 5 and whose address is not 16 lowercase hex digits, both of the same subtype mac
or ow and both passing the checks of the urn and dev literals, the components and the
identifiers. Both are rejected; for mac the two errors differ ("invalid input (mac)" and
"invalid input (EUI-64)"), for ow both are "invalid input (ow)". -/
theorem C20_address_rejections (uni : Char → Char) (a b st s0 s1 s3 s4 t0 t1 addr : Str)
    (ids more : List Str)
    (hst : st = "mac".toList ∨ st = "ow".toList)
    (hA : Split ':' a = [s0, s1, st, s3, s4])
    (hA0 : ToLower uni s0 = "urn".toList) (hA1 : ToLower uni s1 = "dev".toList)
    (hAc : (stripLast [s3, s4]).2.all isValidIdentifier = true)
    (hAi : (stripLast [s3, s4]).1.all isValidIdentifier = true)
    (hB : Split ':' b = t0 :: t1 :: st :: ids) (hB1 : 1 ≤ ids.length) (hB12 : ids.length ≤ 12)
    (hB5 : ids.length ≠ 2)
    (hBu : ToLower uni t0 = "urn".toList) (hBd : ToLower uni t1 = "dev".toList)
    (hBc : (stripLast ids).2.all isValidIdentifier = true)
    (hBi : (stripLast ids).1.all isValidIdentifier = true)
    (hBs : (stripLast ids).1 = addr :: more)
    (hBa : ¬ (addr.length = 16 ∧ ∀ c ∈ addr, isHexDigit c = true)) :
    ∃ ea eb, Parse uni a = some (UrnDev.zero, some ea) ∧
      Parse uni b = some (UrnDev.zero, some eb) ∧
      (st = "mac".toList →
        ea = "invalid input (mac)".toList ∧ eb = "invalid input (EUI-64)".toList ∧ ea ≠ eb) ∧
      (st = "ow".toList →
        ea = "invalid input (ow)".toList ∧ eb = "invalid input (ow)".toList ∧ ea = eb) := by
  have hmore : more.length ≠ 1 := by
    have : (stripLast ids).1.length = ids.length := by
      rcases ids with _ | ⟨x, ids⟩
      · simp at hB1
      · simp [stripLast]
    rw [hBs] at this
    simp only [List.length_cons] at this
    omega
  have ha1 : isValidEui64 addr = false := by
    cases hv : isValidEui64 addr with
    | false => rfl
    | true => exact absurd ((isValidEui64_iff addr).1 hv) hBa
  have ha2 : isValidOwAddress addr = false := ha1
  have hPa := Parse_sections uni a s0 s1 st s3 [s4] hA (by simp)
  rw [parseSections_valid uni a s0 s1 st _ hA0 hA1 hAc hAi] at hPa
  rcases ids with _ | ⟨x, rest⟩
  · simp at hB1
  have hPb := Parse_sections uni b t0 t1 st x rest hB (by simp at hB12; omega)
  rw [parseSections_valid uni b t0 t1 st _ hBu hBd hBc hBi, hBs] at hPb
  rcases hst with rfl | rfl
  · refine ⟨"invalid input (mac)".toList, "invalid input (EUI-64)".toList, ?_, ?_, ?_, ?_⟩
    · rw [hPa]
      simp [stripLast, dispatch, failWith, errorsNew]
    · rw [hPb]
      simp [dispatch, failWith, errorsNew, hmore, ha1]
    · intro _
      exact ⟨rfl, rfl, by decide⟩
    · intro e
      exact absurd e (by decide)
  · refine ⟨"invalid input (ow)".toList, "invalid input (ow)".toList, ?_, ?_, ?_, ?_⟩
    · rw [hPa]
      simp [stripLast, dispatch, failWith, errorsNew]
    · rw [hPb]
      simp [dispatch, failWith, errorsNew, hmore, ha2]
    · intro e
      exact absurd e (by decide)
    · intro _
      exact ⟨rfl, rfl, rfl⟩

theorem C20_address_rejections_witness :
    ∃ ea eb, Parse id "urn:dev:mac:acde48234567019f:invalid".toList =
        some (UrnDev.zero, some ea) ∧
      Parse id "urn:dev:mac:acde48234567019".toList = some (UrnDev.zero, some eb) ∧
      ("mac".toList = "mac".toList →
        ea = "invalid input (mac)".toList ∧ eb = "invalid input (EUI-64)".toList ∧ ea ≠ eb) ∧
      ("mac".toList = "ow".toList →
        ea = "invalid input (ow)".toList ∧ eb = "invalid input (ow)".toList ∧ ea = eb) :=
  C20_address_rejections id "urn:dev:mac:acde48234567019f:invalid".toList
    "urn:dev:mac:acde48234567019".toList "mac".toList "urn".toList "dev".toList
    "acde48234567019f".toList "invalid".toList "urn".toList "dev".toList
    "acde48234567019".toList ["acde48234567019".toList] []
    (by decide) (by decide) (by decide) (by decide) (by decide) (by decide) (by decide)
    (by decide) (by decide) (by decide) (by decide) (by decide) (by decide) (by decide)
    (by decide) (by decide)

/-! ## Every call returns -/

theorem dispatch_returns (name st : Str) (comps ids : List Str) (hne : ids ≠ []) :
    ∃ r e, dispatch name st comps ids = some (r, e) := by
  rcases ids with _ | ⟨s3, more⟩
  · exact absurd rfl hne
  · cases hd : dispatch name st comps (s3 :: more) with
    | some p => exact ⟨p.1, p.2, rfl⟩
    | none =>
      unfold dispatch at hd
      simp only [failWith, errorsNew] at hd
      split_ifs at hd <;> (try split at hd) <;> (try split_ifs at hd) <;> cases hd

theorem parseSections_returns (uni : Char → Char) (name s0 s1 st : Str) (ids : List Str) :
    ∃ r e, parseSections uni name s0 s1 st ids = some (r, e) := by
  unfold parseSections
  simp only [failWith, errorsNew]
  split_ifs <;>
    first
      | exact ⟨_, _, rfl⟩
      | exact dispatch_returns _ _ _ _ (stripLast_fst_ne_nil ids)

theorem Parse_returns (uni : Char → Char) (name : Str) :
    ∃ r e, Parse uni name = some (r, e) := by
  by_cases hb : (Split ':' name).length < 4 ∨ 16 ≤ (Split ':' name).length
  · exact ⟨_, _, Parse_malformed uni name hb⟩
  · obtain ⟨s0, s1, st, s3, rest, hS, hlen⟩ := sections_shape name hb
    rw [Parse_sections uni name s0 s1 st s3 rest hS hlen]
    exact parseSections_returns uni name s0 s1 st (s3 :: rest)

/-- C24: `Parse` is total and no index or slice bound it reaches is out of range: for every
input it returns a record and an error value. In the embedding every access (`sections[0]`,
`sections[1]`, `sections[2]`, `sections[3]`, `sections[len-1]`, `sections[3:]`,
`componentPart[0]`, `out.Identifier[1:]`, `out.Identifier[0] = ...` and the indexed results of
the dash splits) yields `none` when out of range, and `Parse` is never `none`. -/
theorem C24_parse_never_panics (uni : Char → Char) (name : Str) :
    ∃ r e, Parse uni name = some (r, e) :=
  Parse_returns uni name

/-! ## Order of the stages -/

theorem parseSections_identifier (uni : Char → Char) (name s0 s1 st : Str) (ids : List Str)
    (h0 : ToLower uni s0 = "urn".toList) (h1 : ToLower uni s1 = "dev".toList)
    (hc : (stripLast ids).2.all isValidIdentifier = true)
    (hi : (stripLast ids).1.all isValidIdentifier = false) :
    parseSections uni name s0 s1 st ids =
      some (UrnDev.zero, some "invalid input (identifier)".toList) := by
  unfold parseSections
  simp only [h0, h1, hc, hi, ne_eq, not_true_eq_false, if_false, Bool.false_eq_true,
    not_false_eq_true, if_true, failWith, errorsNew]

/-- C22: for an input with 4 to 15 sections (`s0 :: s1 :: st :: ids` with `1 ≤ |ids| ≤ 12`),
valid urn and dev literals and valid component tokens, if some section from index 3 on (the
last one taken after the component part was stripped) is not a valid identifier, `Parse` fails
with "invalid input (identifier)", whatever the subtype `st` is. -/
theorem C22_identifier_check_comes_first (uni : Char → Char) (name s0 s1 st : Str)
    (ids : List Str)
    (hS : Split ':' name = s0 :: s1 :: st :: ids) (h1 : 1 ≤ ids.length) (h12 : ids.length ≤ 12)
    (hu : ToLower uni s0 = "urn".toList) (hd : ToLower uni s1 = "dev".toList)
    (hc : (stripLast ids).2.all isValidIdentifier = true)
    (hi : ∃ x ∈ (stripLast ids).1, isValidIdentifier x = false) :
    Parse uni name = some (UrnDev.zero, some "invalid input (identifier)".toList) := by
  rcases ids with _ | ⟨s3, rest⟩
  · simp at h1
  · rw [Parse_sections uni name s0 s1 st s3 rest hS (by simp at h12; omega)]
    apply parseSections_identifier uni name s0 s1 st (s3 :: rest) hu hd hc
    obtain ⟨x, hx, hv⟩ := hi
    cases hall : (stripLast (s3 :: rest)).1.all isValidIdentifier with
    | false => rfl
    | true =>
      rw [List.all_eq_true] at hall
      rw [hall x hx] at hv
      exact absurd hv (by simp)

theorem C22_identifier_check_comes_first_witness :
    (Parse id "urn:dev:mac:0024beffff804ff1:fa%il".toList =
        some (UrnDev.zero, some "invalid input (identifier)".toList) ∧
      Parse id "urn:dev:mac:".toList =
        some (UrnDev.zero, some "invalid input (identifier)".toList)) ∧
    Parse id "urn:dev:INVALID:fa%il_c".toList =
      some (UrnDev.zero, some "invalid input (identifier)".toList) :=
  ⟨⟨C22_identifier_check_comes_first id "urn:dev:mac:0024beffff804ff1:fa%il".toList
        "urn".toList "dev".toList "mac".toList ["0024beffff804ff1".toList, "fa%il".toList]
        (by decide) (by decide) (by decide) (by decide) (by decide) (by decide)
        ⟨"fa%il".toList, by decide, by decide⟩,
      C22_identifier_check_comes_first id "urn:dev:mac:".toList
        "urn".toList "dev".toList "mac".toList [[]]
        (by decide) (by decide) (by decide) (by decide) (by decide) (by decide)
        ⟨[], by decide, by decide⟩⟩,
    C22_identifier_check_comes_first id "urn:dev:INVALID:fa%il_c".toList
      "urn".toList "dev".toList "INVALID".toList ["fa%il_c".toList]
      (by decide) (by decide) (by decide) (by decide) (by decide) (by decide)
      ⟨"fa%il".toList, by decide, by decide⟩⟩

/-! ## The tokens of a returned record -/

theorem Split_append_sep_end (sep : Char) (y : Str) :
    Split sep (y ++ [sep]) = Split sep y ++ [[]] := by
  induction y with
  | nil => simp [Split]
  | cons c cs ih =>
    by_cases hc : c = sep
    · simp [Split, hc, ih]
    · have hne := Split_ne_nil sep cs
      rcases hS : Split sep cs with _ | ⟨p, more⟩
      · exact absurd hS hne
      · rw [hS] at ih
        simp [Split, hc, ih, hS]

theorem token_of_isValidIdentifier (t : Str) (h : isValidIdentifier t = true) :
    t ≠ [] ∧ (∀ c ∈ t, isReserved c = true) ∧ ':' ∉ t ∧ '_' ∉ t :=
  ⟨((isValidIdentifier_iff t).1 h).1, ((isValidIdentifier_iff t).1 h).2,
    (not_mem_of_isValidIdentifier t h).1, (not_mem_of_isValidIdentifier t h).2⟩

theorem Parse_success_tokens (uni : Char → Char) (name : Str) (r : UrnDev)
    (h : Parse uni name = some (r, none)) :
    ∃ cs ids, r.Component = some cs ∧ r.Identifier = some ids ∧
      ∀ t ∈ cs ++ ids, isValidIdentifier t = true := by
  obtain ⟨s0, s1, st, s3, rest, _, _, _, _, hc, hi, hd, _, _, hcomp⟩ := Parse_success uni name r h
  obtain ⟨s3', more, hids, hcase⟩ := dispatch_success _ _ _ _ _ hd
  rw [hids] at hi
  rw [List.all_eq_true] at hc hi
  have hmore : ∀ t ∈ more, isValidIdentifier t = true := fun t ht => hi t (by simp [ht])
  have h3 : isValidIdentifier s3' = true := hi s3' (by simp)
  refine ⟨(stripLast (s3 :: rest)).2, ?_⟩
  rcases hcase with ⟨_, _, _, hr⟩ | ⟨_, _, _, hr⟩ | ⟨_, o, i, _, _, hvi, hr⟩ |
    ⟨_, o, s, _, _, _, hr⟩ | ⟨_, o, p, s, _, _, _, _, hr⟩ | ⟨_, _, hr⟩
  · refine ⟨more, hcomp, by rw [hr], ?_⟩
    intro t ht
    rcases List.mem_append.1 ht with ht | ht
    · exact hc t ht
    · exact hmore t ht
  · refine ⟨more, hcomp, by rw [hr], ?_⟩
    intro t ht
    rcases List.mem_append.1 ht with ht | ht
    · exact hc t ht
    · exact hmore t ht
  · refine ⟨i :: more, hcomp, by rw [hr], ?_⟩
    intro t ht
    rcases List.mem_append.1 ht with ht | ht
    · exact hc t ht
    · rcases List.mem_cons.1 ht with rfl | ht
      · exact hvi
      · exact hmore t ht
  · refine ⟨more, hcomp, by rw [hr], ?_⟩
    intro t ht
    rcases List.mem_append.1 ht with ht | ht
    · exact hc t ht
    · exact hmore t ht
  · refine ⟨more, hcomp, by rw [hr], ?_⟩
    intro t ht
    rcases List.mem_append.1 ht with ht | ht
    · exact hc t ht
    · exact hmore t ht
  · refine ⟨s3' :: more, hcomp, by rw [hr], ?_⟩
    intro t ht
    rcases List.mem_append.1 ht with ht | ht
    · exact hc t ht
    · exact hi t ht

theorem Parse_underscore_end_no_success (uni : Char → Char) (x : Str) (r : UrnDev) :
    Parse uni (x ++ "_".toList) ≠ some (r, none) := by
  intro h
  obtain ⟨s0, s1, st, s3, rest, hS, _, _, _, hc, _⟩ := Parse_success uni _ r h
  have hsp := Split_append_right ':' x "_".toList (by decide)
  rw [hS] at hsp
  have hlast : (s3 :: rest).getLastD [] = (Split ':' x).getLastD [] ++ "_".toList := by
    have := congrArg (fun l => l.getLastD []) hsp
    simp only [List.getLastD_cons, List.getLastD_concat] at this ⊢
    exact this
  have hmem : ([] : Str) ∈ (stripLast (s3 :: rest)).2 := by
    unfold stripLast
    simp only [hlast]
    have he := Split_append_sep_end '_' ((Split ':' x).getLastD [])
    have hne := Split_ne_nil '_' ((Split ':' x).getLastD [])
    rw [show "_".toList = ['_'] from rfl, he]
    rcases hS2 : Split '_' ((Split ':' x).getLastD []) with _ | ⟨p, more⟩
    · exact absurd hS2 hne
    · simp
  rw [List.all_eq_true] at hc
  exact absurd (hc [] hmem) (by decide)

/-- C21: when `Parse` succeeds, every element of `Component` and every element of the final
`Identifier` list is a valid identifier: non-empty, made of characters in `[A-Za-z0-9.-]` only,
so it holds neither ':' nor '_'. An input ending in '_' is rejected. -/
theorem C21_returned_tokens_valid (uni : Char → Char) (name : Str) (r : UrnDev)
    (h : Parse uni name = some (r, none)) :
    (∃ cs ids, r.Component = some cs ∧ r.Identifier = some ids ∧
      ∀ t ∈ cs ++ ids, t ≠ [] ∧ (∀ c ∈ t, isReserved c = true) ∧ ':' ∉ t ∧ '_' ∉ t) ∧
    (∀ x : Str, ∃ e, Parse uni (x ++ "_".toList) = some (UrnDev.zero, some e)) := by
  constructor
  · obtain ⟨cs, ids, h1, h2, h3⟩ := Parse_success_tokens uni name r h
    exact ⟨cs, ids, h1, h2, fun t ht => token_of_isValidIdentifier t (h3 t ht)⟩
  · intro x
    obtain ⟨r2, e, hp⟩ := Parse_returns uni (x ++ "_".toList)
    cases e with
    | none => exact absurd hp (Parse_underscore_end_no_success uni x r2)
    | some m =>
      rcases Parse_shape uni _ r2 _ hp with h1 | ⟨_, h1 | h1⟩
      · rw [h1.1] at hp
        exact ⟨m, hp⟩
      · rw [h1.1] at hp
        exact ⟨m, hp⟩
      · exact absurd h1.1 (by simp)

theorem C21_returned_tokens_valid_witness :
    Parse id "urn:dev:org:32473-foo:a.b:c-d_comp_x".toList =
      some ({ FullName := "urn:dev:org:32473-foo:a.b:c-d_comp_x".toList,
              Subtype := "org".toList, Organization := "32473".toList, Product := [],
              Serial := [], Component := some ["comp".toList, "x".toList],
              Identifier := some ["foo".toList, "a.b".toList, "c-d".toList],
              Eui64Identifier := [], OwIdentifier := [] }, none) ∧
    ((∃ cs ids, some ["comp".toList, "x".toList] = some cs ∧
        some ["foo".toList, "a.b".toList, "c-d".toList] = some ids ∧
        ∀ t ∈ cs ++ ids, t ≠ [] ∧ (∀ c ∈ t, isReserved c = true) ∧ ':' ∉ t ∧ '_' ∉ t) ∧
      (∀ x : Str, ∃ e, Parse id (x ++ "_".toList) = some (UrnDev.zero, some e))) :=
  ⟨by decide,
    C21_returned_tokens_valid id "urn:dev:org:32473-foo:a.b:c-d_comp_x".toList
      { FullName := "urn:dev:org:32473-foo:a.b:c-d_comp_x".toList,
        Subtype := "org".toList, Organization := "32473".toList, Product := [],
        Serial := [], Component := some ["comp".toList, "x".toList],
        Identifier := some ["foo".toList, "a.b".toList, "c-d".toList],
        Eui64Identifier := [], OwIdentifier := [] } (by decide)⟩

/-! ## The ops body -/

theorem Split_piece_no_sep (sep : Char) (x : Str) : ∀ y ∈ Split sep x, sep ∉ y := by
  induction x with
  | nil => simp [Split]
  | cons c cs ih =>
    by_cases hc : c = sep
    · intro y hy
      simp only [Split, hc, if_true, List.mem_cons] at hy
      rcases hy with rfl | hy
      · simp
      · exact ih y hy
    · have hne := Split_ne_nil sep cs
      rcases hS : Split sep cs with _ | ⟨p, more⟩
      · exact absurd hS hne
      · rw [hS] at ih
        intro y hy
        simp only [Split, hc, if_false, hS, List.mem_cons] at hy
        rcases hy with rfl | hy
        · have hp := ih p (by simp)
          intro hm
          rcases List.mem_cons.1 hm with e | hm
          · exact hc e.symm
          · exact hp hm
        · exact ih y (by simp [hy])

theorem Split_three (sep : Char) (o p s : Str) (ho : sep ∉ o) (hp : sep ∉ p) (hs : sep ∉ s) :
    Split sep (o ++ sep :: (p ++ sep :: s)) = [o, p, s] := by
  rw [Split_append_sep sep o _ ho, Split_append_sep sep p _ hp, Split_no_sep sep s hs]

theorem noDash_not_mem (t : Str) (h : ∀ c ∈ t, isReservedNoDash c = true) : '-' ∉ t :=
  fun hm => isReservedNoDash_ne_dash _ (h _ hm) rfl

theorem isReservedNoDash_of_ne_dash (c : Char) (h : isReserved c = true) (hd : c ≠ '-') :
    isReservedNoDash c = true := by
  simp only [isReserved, Bool.or_eq_true, decide_eq_true_eq] at h
  rcases h with h | h
  · exact h
  · exact absurd h hd

theorem count_dash_eq_zero (t : Str) (h : '-' ∉ t) : t.count '-' = 0 :=
  List.count_eq_zero.2 h

theorem ops_body_success (uni : Char → Char) (B : Str) (hc : ':' ∉ B) (hu : '_' ∉ B)
    (r : UrnDev) :
    Parse uni ("urn:dev:ops:".toList ++ B) = some (r, none) ↔
      ∃ o p s, Split '-' B = [o, p, s] ∧ isValidIdentifier B = true ∧
        isValidPosNumber o = true ∧ isValidIdentifierNoDash p = true ∧
        isValidIdentifier s = true ∧
        r = { FullName := "urn:dev:ops:".toList ++ B, Subtype := "ops".toList,
              Organization := o, Product := p, Serial := s, Component := some [],
              Identifier := some [], Eui64Identifier := [], OwIdentifier := [] } := by
  have hname : "urn:dev:ops:".toList ++ B =
      build "urn".toList "dev".toList "ops".toList B [] [] := by
    simp [build, withSep]
  obtain ⟨L, hP, hL⟩ := Parse_build uni "urn".toList "dev".toList "ops".toList B [] []
    (by decide) (by decide) (by decide) (by simpa using ⟨hc, hu⟩) (by simp) (by simp)
  rw [← hname] at hP
  rw [hP]
  unfold parseSections
  rw [hL]
  simp only [ToLower_urn, ToLower_dev, ne_eq, not_true_eq_false, if_false, List.all_nil,
    List.all_cons, Bool.and_true]
  cases hvB : isValidIdentifier B with
  | false =>
    simp only [Bool.false_eq_true, not_false_eq_true, if_true, failWith, errorsNew]
    constructor
    · intro h
      cases h
    · rintro ⟨o, p, s, _, hv, _⟩
      exact absurd hv (by simp)
  | true =>
    simp only [not_true_eq_false, if_false]
    constructor
    · intro h
      obtain ⟨s3, more, hids, hcase⟩ := dispatch_success _ _ _ _ _ h
      simp only [List.cons.injEq] at hids
      obtain ⟨e1, e2⟩ := hids
      subst e1 e2
      rcases hcase with ⟨e, _⟩ | ⟨e, _⟩ | ⟨e, _⟩ | ⟨e, _⟩ | ⟨_, o, p, s, hS, ho, hp, hs, hr⟩ |
        ⟨⟨_, _, _, _, e⟩, _⟩
      · exact absurd e (by decide)
      · exact absurd e (by decide)
      · exact absurd e (by decide)
      · exact absurd e (by decide)
      · exact ⟨o, p, s, hS, trivial, ho, hp, hs, hr⟩
      · exact absurd rfl e
    · rintro ⟨o, p, s, hS, _, ho, hp, hs, hr⟩
      subst hr
      simp [dispatch, hS, ho, hp, hs]

/-- C23: for a string `B` holding neither ':' nor '_', `Parse("urn:dev:ops:" + B)` succeeds iff
`B` is `o + "-" + p + "-" + s` with `o` a digit 1-9 followed by digits and `p`, `s` non-empty
over `[A-Za-z0-9.]`, and holds exactly two dashes. The `Serial` of every accepted ops input holds
no dash, and a body `B` with three or more dashes is rejected. -/
theorem C23_ops_body_iff (uni : Char → Char) (B : Str) (hc : ':' ∉ B) (hu : '_' ∉ B) :
    ((∃ r, Parse uni ("urn:dev:ops:".toList ++ B) = some (r, none)) ↔
      B.count '-' = 2 ∧
      ∃ d ds p s, B = (d :: ds) ++ "-".toList ++ p ++ "-".toList ++ s ∧
        isNzDigit d = true ∧ (∀ c ∈ ds, isDigit c = true) ∧
        p ≠ [] ∧ (∀ c ∈ p, isReservedNoDash c = true) ∧
        s ≠ [] ∧ (∀ c ∈ s, isReservedNoDash c = true)) ∧
    (∀ name r, Parse uni name = some (r, none) → r.Subtype = "ops".toList → '-' ∉ r.Serial) ∧
    (3 ≤ B.count '-' →
      ∃ e, Parse uni ("urn:dev:ops:".toList ++ B) = some (UrnDev.zero, some e)) := by
  have hiff : (∃ r, Parse uni ("urn:dev:ops:".toList ++ B) = some (r, none)) ↔
      ∃ d ds p s, B = (d :: ds) ++ "-".toList ++ p ++ "-".toList ++ s ∧
        isNzDigit d = true ∧ (∀ c ∈ ds, isDigit c = true) ∧
        p ≠ [] ∧ (∀ c ∈ p, isReservedNoDash c = true) ∧
        s ≠ [] ∧ (∀ c ∈ s, isReservedNoDash c = true) := by
    constructor
    · rintro ⟨r, h⟩
      obtain ⟨o, p, s, hS, _, ho, hp, hs, _⟩ := (ops_body_success uni B hc hu r).1 h
      obtain ⟨d, ds, rfl, hd, hds⟩ := (isValidPosNumber_iff o).1 ho
      have hp2 := (isValidIdentifierNoDash_iff p).1 hp
      have hs2 := (isValidIdentifier_iff s).1 hs
      have hsd : '-' ∉ s := Split_piece_no_sep '-' B s (by rw [hS]; simp)
      refine ⟨d, ds, p, s, ?_, hd, hds, hp2.1, hp2.2, hs2.1, ?_⟩
      · rw [Split_three_inv '-' B _ p s hS]
        simp
      · intro c hcs
        exact isReservedNoDash_of_ne_dash c (hs2.2 c hcs) (fun e => hsd (e ▸ hcs))
    · rintro ⟨d, ds, p, s, hB, hd, hds, hp1, hp2, hs1, hs2⟩
      have hB2 : B = (d :: ds) ++ '-' :: (p ++ '-' :: s) := by
        rw [hB]
        simp
      have hS : Split '-' B = [d :: ds, p, s] := by
        rw [hB2]
        exact Split_three '-' (d :: ds) p s (posNumber_no_dash d ds hd hds)
          (noDash_not_mem p hp2) (noDash_not_mem s hs2)
      have hvs : isValidIdentifier s = true :=
        (isValidIdentifier_iff s).2 ⟨hs1, fun c h => isReserved_of_noDash c (hs2 c h)⟩
      have hvB : isValidIdentifier B = true := by
        rw [hB2]
        refine isValidIdentifier_org_body d ds _ hd hds ?_
        intro c hcm
        rcases List.mem_append.1 hcm with hcm | hcm
        · exact isReserved_of_noDash c (hp2 c hcm)
        · rcases List.mem_cons.1 hcm with rfl | hcm
          · decide
          · exact isReserved_of_noDash c (hs2 c hcm)
      exact ⟨_, (ops_body_success uni B hc hu _).2
        ⟨d :: ds, p, s, hS, hvB, isValidPosNumber_cons d ds hd hds,
          (isValidIdentifierNoDash_iff p).2 ⟨hp1, hp2⟩, hvs, rfl⟩⟩
  refine ⟨⟨fun h => ?_, fun h => hiff.2 h.2⟩, ?_, ?_⟩
  · obtain ⟨d, ds, p, s, hB, hd, hds, hp1, hp2, hs1, hs2⟩ := hiff.1 h
    have h1 := count_dash_eq_zero _ (posNumber_no_dash d ds hd hds)
    have h2 := count_dash_eq_zero _ (noDash_not_mem p hp2)
    have h4 := count_dash_eq_zero _ (noDash_not_mem s hs2)
    refine ⟨?_, d, ds, p, s, hB, hd, hds, hp1, hp2, hs1, hs2⟩
    rw [hB]
    simp only [String.toList, List.count_append, h1, h2, h4, List.count_singleton_self]
  · intro name r h hst
    obtain ⟨s0, s1, st, s3, rest, _, _, _, _, _, _, hd, _, hsub, _⟩ := Parse_success uni name r h
    rw [hst] at hsub
    subst hsub
    obtain ⟨s3', more, _, hcase⟩ := dispatch_success _ _ _ _ _ hd
    rcases hcase with ⟨e, _⟩ | ⟨e, _⟩ | ⟨e, _⟩ | ⟨e, _⟩ | ⟨_, o, p, s, hS, _, _, _, hr⟩ |
      ⟨⟨_, _, _, _, e⟩, _⟩
    · exact absurd e (by decide)
    · exact absurd e (by decide)
    · exact absurd e (by decide)
    · exact absurd e (by decide)
    · subst hr
      exact Split_piece_no_sep '-' s3' s (by rw [hS]; simp)
    · exact absurd rfl e
  · intro h3
    obtain ⟨r2, e, hp⟩ := Parse_returns uni ("urn:dev:ops:".toList ++ B)
    cases e with
    | none =>
      obtain ⟨d, ds, p, s, hB, hd, hds, _, hp2, _, hs2⟩ := hiff.1 ⟨r2, hp⟩
      have h1 := count_dash_eq_zero _ (posNumber_no_dash d ds hd hds)
      have h2 := count_dash_eq_zero _ (noDash_not_mem p hp2)
      have h4 := count_dash_eq_zero _ (noDash_not_mem s hs2)
      rw [hB] at h3
      simp only [String.toList, List.count_append, h1, h2, h4, List.count_singleton_self] at h3
      omega
    | some m =>
      rcases Parse_shape uni _ r2 _ hp with h1 | ⟨_, h1 | h1⟩
      · rw [h1.1] at hp
        exact ⟨m, hp⟩
      · rw [h1.1] at hp
        exact ⟨m, hp⟩
      · exact absurd h1.1 (by simp)

theorem C23_ops_body_iff_witness :
    (':' ∉ "32473-Refrigerator-5002".toList ∧ '_' ∉ "32473-Refrigerator-5002".toList) ∧
    (∃ r, Parse id ("urn:dev:ops:".toList ++ "32473-Refrigerator-5002".toList) =
      some (r, none)) ∧
    (∃ e, Parse id ("urn:dev:ops:".toList ++ "32473-Refrigerator-50-0-2".toList) =
      some (UrnDev.zero, some e)) :=
  ⟨⟨by decide, by decide⟩,
    (C23_ops_body_iff id "32473-Refrigerator-5002".toList (by decide) (by decide)).1.2
      ⟨by decide, '3', "2473".toList, "Refrigerator".toList, "5002".toList, by decide, by decide,
        by decide, by decide, by decide, by decide, by decide⟩,
    (C23_ops_body_iff id "32473-Refrigerator-50-0-2".toList (by decide) (by decide)).2.2
      (by decide)⟩

end rfc9039
